import Mathlib

/-!
Verification of the ASO-CLI `aads-aso` command (Go sources under `cmd/aads-aso/`)
against its natural-language specification.

The Go code is shallowly embedded: pure helpers become Lean functions over
`String`/`List`, Go errors become `Except String` / `Option String` values
carrying the `err.Error()` text, and the per-country retry loop of the
`popscore`/`recommend` commands becomes explicit state passing over a stub
client environment.  Character-level operations (`strings.ToLower`,
`strings.Contains`, `strings.TrimSpace`, `strings.EqualFold`) are modelled on
the ASCII range, which covers every sentinel and keyword the code compares.
-/

namespace ASOCLI

/-- `sub` is a prefix of `s`, on character lists. -/
def charsStartWith : List Char → List Char → Bool
  | _, [] => true
  | [], _ :: _ => false
  | a :: as, b :: bs => a == b && charsStartWith as bs

/-- `sub` occurs contiguously inside `s`, on character lists. -/
def charsContain : List Char → List Char → Bool
  | [], sub => charsStartWith [] sub
  | a :: as, sub => charsStartWith (a :: as) sub || charsContain as sub

/-- `strings.Contains(s, sub)`: substring containment. -/
def strContains (s sub : String) : Bool := charsContain s.data sub.data

/-- `strings.ToLower` on the ASCII range (every string the code lowers before
comparing is compared against ASCII sentinels). -/
def strToLower (s : String) : String := ⟨s.data.map Char.toLower⟩

/-- Whitespace as recognised by `strings.TrimSpace` (ASCII range:
space, tab, newline, carriage return, vertical tab, form feed). -/
def goIsSpace (c : Char) : Bool :=
  c.toNat == 32 || c.toNat == 9 || c.toNat == 10 || c.toNat == 13 ||
  c.toNat == 11 || c.toNat == 12

/-- `strings.TrimSpace` (ASCII whitespace). -/
def strTrim (s : String) : String :=
  ⟨((s.data.dropWhile goIsSpace).reverse.dropWhile goIsSpace).reverse⟩

/-- `strings.EqualFold` restricted to ASCII case folding (the code only folds
the ASCII word "success"). -/
def eqFold (a b : String) : Bool :=
  a.data.map Char.toLower == b.data.map Char.toLower

/-! ## Error classifiers (`cm_keywords.go`, `isCMRefreshError` /
`isCMNoUserOwnedAppsError`) -/

/-- Body of `isCMRefreshError` applied to the error text `err.Error()`
(`cm_keywords.go` lines 807-818). -/
def isCMRefreshErrorStr (e : String) : Bool :=
  let s := strToLower e
  if strContains s "no_user_owned_apps_found_code" then false
  else
    strContains s "internalerrorcode\":\"refresh" ||
    strContains s "user is not logged in" ||
    (strContains s "cm endpoint http 403" &&
      !strContains s "no_user_owned_apps_found_code")

/-- `isCMRefreshError` with the `err == nil` guard: `none` models a nil
error. -/
def isCMRefreshError : Option String → Bool
  | none => false
  | some e => isCMRefreshErrorStr e

/-- Body of `isCMNoUserOwnedAppsError` applied to the error text
(`cm_keywords.go` lines 820-825). -/
def isCMNoUserOwnedAppsErrorStr (e : String) : Bool :=
  strContains (strToLower e) "no_user_owned_apps_found_code"

/-- `isCMNoUserOwnedAppsError` with the `err == nil` guard. -/
def isCMNoUserOwnedAppsError : Option String → Bool
  | none => false
  | some e => isCMNoUserOwnedAppsErrorStr e

/-- Modelled from the spec's words for claim C3: `CredentialExpired` holds
when the lowered message contains the internal-code-tagged "refresh", or the
literal "user is not logged in", or the HTTP-403 marker without the not-owned
sentinel.  (Here the sentinel only excludes the 403 branch, unlike the
code, where it excludes all three.) -/
def credentialExpiredSpecC3 (e : String) : Bool :=
  let s := strToLower e
  strContains s "internalerrorcode\":\"refresh" ||
  strContains s "user is not logged in" ||
  (strContains s "cm endpoint http 403" &&
    !strContains s "no_user_owned_apps_found_code")

/-! ## Credential loading (`cm_keywords.go`, `getCookieFlag`, lines
345-374) -/

/-- Outcome of `os.ReadFile` on the cookie file: the file may be absent
(`os.ErrNotExist`), unreadable for another reason, or readable. -/
inductive FileReadResult where
  | notExist
  | readFailure (msg : String)
  | contents (s : String)
deriving DecidableEq

/-- `getCookieFlag`: `cookieArg` / `cookieFileArg` are the `--cookie` and
`--cookie-file` flag values, `file` the outcome of reading the cookie file,
`autoCookie` the `--auto-cookie` flag, and `refresh` the outcome of
`refreshCMCookieFromFlags` (the external interactive refresher). -/
def getCookieFlag (cookieArg cookieFileArg : String) (file : FileReadResult)
    (autoCookie : Bool) (refresh : Except String String) :
    Except String String :=
  let c0 := strTrim cookieArg
  let loaded : Except String String :=
    if c0 == "" && !(strTrim cookieFileArg == "") then
      match file with
      | .notExist => .ok c0
      | .readFailure m => .error m
      | .contents b => .ok (strTrim b)
    else .ok c0
  match loaded with
  | .error e => .error e
  | .ok c1 =>
    let c2 :=
      if charsStartWith (strToLower c1).data "cookie:".data then
        strTrim ⟨c1.data.drop 7⟩
      else c1
    if c2 == "" then
      if !autoCookie then
        .error "--cookie (or --cookie-file) is required for this command"
      else refresh
    else .ok c2

/-! ## Recommendation post-processing (`newASORecommendCmd`, lines 229-233
and 270-307) -/

/-- One result item from the CM API (`cmKeywordItem`). -/
structure CmKeywordItem where
  id : Int
  name : String
  popularity : Int
  matchType : String
deriving DecidableEq

/-- One output row of the `recommend` command (`asoRecommendRow`). -/
structure AsoRecommendRow where
  country : String
  seed : String
  term : String
  popularity : Option Int
  matchType : Option String
  rank : Nat
  source : String
deriving DecidableEq

/-- Byte-wise (for ASCII and, code-point-wise, for all of UTF-8)
lexicographic `<` on Go strings, on character lists. -/
def charsLt : List Char → List Char → Bool
  | [], [] => false
  | [], _ :: _ => true
  | _ :: _, [] => false
  | a :: as, b :: bs => decide (a < b) || (a == b && charsLt as bs)

/-- The comparator passed to `sort.Slice` in `newASORecommendCmd` (lines
280-285): descending popularity, then ascending lower-cased name. -/
def cmRecommendLess (a b : CmKeywordItem) : Bool :=
  if a.popularity != b.popularity then decide (a.popularity > b.popularity)
  else charsLt (strToLower a.name).data (strToLower b.name).data

/-- The filter applied to recommendation items before sorting (lines
270-279): drop items below the minimum popularity and items whose name is
blank after trimming. -/
def cmRecommendKeep (minPop : Int) (it : CmKeywordItem) : Bool :=
  !(decide (it.popularity < minPop)) && !(strTrim it.name == "")

/-- The relation by which the kept items end up ordered (`a` may precede
`b` exactly when `b` need not precede `a` under `cmRecommendLess`). -/
def cmRecommendLE (a b : CmKeywordItem) : Prop := !cmRecommendLess b a = true

instance : DecidableRel cmRecommendLE := fun a b => by
  unfold cmRecommendLE; infer_instance

/-- Builds one output row from a kept item and its 0-based position
(lines 290-306). -/
def mkRecommendRow (country seed : String) (i : Nat) (it : CmKeywordItem) :
    AsoRecommendRow :=
  let mt := strTrim it.matchType
  { country := country
    seed := seed
    term := it.name
    popularity := some it.popularity
    matchType := if mt == "" then none else some mt
    rank := i + 1
    source := "cm_api_v2" }

/-- The row-building loop `for i, it := range kept` (lines 290-306),
carrying the running 0-based index. -/
def rowsFrom (country seed : String) : Nat → List CmKeywordItem →
    List AsoRecommendRow
  | _, [] => []
  | i, it :: rest =>
    mkRecommendRow country seed i it :: rowsFrom country seed (i + 1) rest

/-- Post-processing of the recommendation items returned for one country
(`newASORecommendCmd`, lines 229-233 and 270-307): normalize the limit,
filter by minimum popularity and non-blank name, sort by descending
popularity then ascending lower-cased name, truncate to the limit, and
build ranked output rows.  `sort.Slice` is an unstable sort; the embedding
fixes the stable insertion sort over the same comparator, one of the
permitted outcomes. -/
def asoRecommendRows (country seed : String) (limitFlag minPop : Int)
    (items : List CmKeywordItem) : List AsoRecommendRow :=
  let limit : Int := if limitFlag ≤ 0 then 50 else limitFlag
  let kept := items.filter (cmRecommendKeep minPop)
  let sorted := List.insertionSort cmRecommendLE kept
  let trunc :=
    if decide ((sorted.length : Int) > limit) then sorted.take limit.toNat
    else sorted
  rowsFrom country seed 0 trunc

/-- Spec-side ordering of output rows for claim C7: a row may precede
another when it has strictly higher popularity, or equal popularity and a
lower-cased term that is not lexicographically greater. -/
def rowLe (r1 r2 : AsoRecommendRow) : Prop :=
  (∃ p1 p2, r1.popularity = some p1 ∧ r2.popularity = some p2 ∧ p2 < p1) ∨
  (r1.popularity = r2.popularity ∧
    charsLt (strToLower r2.term).data (strToLower r1.term).data = false)

/-! ## Request headers (`cmPostJSON` / `cmGetJSON`, `cookieValue`,
`hasHeaderCaseInsensitive`) -/

/-- ASCII decimal digit. -/
def isDigit (c : Char) : Bool := decide ('0' ≤ c) && decide (c ≤ '9')

/-- A byte valid in an HTTP header field name (RFC 7230 token characters),
as in Go `net/textproto.validHeaderFieldByte`. -/
def isTokenChar (c : Char) : Bool :=
  isDigit c ||
  (decide ('a' ≤ c) && decide (c ≤ 'z')) ||
  (decide ('A' ≤ c) && decide (c ≤ 'Z')) ||
  c == '!' || c == '#' || c == '$' || c == '%' || c == '&' ||
  c.toNat == 39 || c == '*' || c == '+' || c == '-' || c == '.' ||
  c == '^' || c == '_' || c.toNat == 96 || c == '|' || c == '~'

/-- ASCII uppercasing of one character (Go subtracts 0x20 from bytes in
a-z). -/
def asciiUpperChar (c : Char) : Char :=
  if 97 ≤ c.toNat ∧ c.toNat ≤ 122 then Char.ofNat (c.toNat - 32) else c

/-- ASCII lowercasing of one character (Go adds 0x20 to bytes in A-Z). -/
def asciiLowerChar (c : Char) : Char :=
  if 65 ≤ c.toNat ∧ c.toNat ≤ 90 then Char.ofNat (c.toNat + 32) else c

/-- The case-normalising scan of `textproto.canonicalMIMEHeaderKey`:
uppercase the first character and every character following a hyphen,
lowercase the rest. -/
def canonChars (upper : Bool) : List Char → List Char
  | [] => []
  | c :: cs =>
    let c2 := if upper then asciiUpperChar c else asciiLowerChar c
    c2 :: canonChars (c2 == '-') cs

/-- `textproto.CanonicalMIMEHeaderKey`: keys containing a byte that is not
a valid header-name token character are returned unchanged. -/
def canonicalMIMEHeaderKey (s : String) : String :=
  if s.data.all isTokenChar then ⟨canonChars true s.data⟩ else s

/-- `http.Header` modelled as an association list keyed by canonical header
names; `headerSet` models `Header.Set`, which replaces the previous value
for the canonicalised key. -/
def headerSet (h : List (String × String)) (key value : String) :
    List (String × String) :=
  let ck := canonicalMIMEHeaderKey key
  h.filter (fun p => !(p.1 == ck)) ++ [(ck, value)]

/-- `Header.Get` (canonicalises the lookup key, like Go). -/
def headerGet (h : List (String × String)) (key : String) : Option String :=
  (h.find? (fun p => p.1 == canonicalMIMEHeaderKey key)).map (fun p => p.2)

/-- Splits a character list on a separator character (semantics of
`strings.Split` for a one-character separator). -/
def splitChar (c : Char) (acc : List Char) : List Char → List (List Char)
  | [] => [acc.reverse]
  | x :: xs =>
    if x == c then acc.reverse :: splitChar c [] xs
    else splitChar c (x :: acc) xs

/-- `strings.Split(s, sep)` for a one-character separator. -/
def strSplit (s : String) (c : Char) : List String :=
  (splitChar c [] s.data).map (fun l => ⟨l⟩)

/-- The scan inside `cookieValue` (`cm_keywords.go` lines 698-712): first
`key=value` part of the Cookie header whose trimmed, lowered key equals the
target wins. -/
def cookieValueScan (target : List Char) : List String → String
  | [] => ""
  | part :: rest =>
    let p := (strTrim part).data
    let i := p.findIdx (fun c => c == '=')
    if p.isEmpty || i == 0 || i == p.length then cookieValueScan target rest
    else
      let k := strToLower (strTrim ⟨p.take i⟩)
      if k.data == target then strTrim ⟨p.drop (i + 1)⟩
      else cookieValueScan target rest

/-- `cookieValue` (`cm_keywords.go` lines 696-713): extracts the value of
one cookie out of a `Cookie`-header string. -/
def cookieValue (cookieHeader key : String) : String :=
  cookieValueScan (strToLower (strTrim key)).data (strSplit cookieHeader ';')

/-- `hasHeaderCaseInsensitive` (`cm_keywords.go` lines 715-723). -/
def hasHeaderCaseInsensitive (headers : List (String × String))
    (name : String) : Bool :=
  let target := strToLower (strTrim name)
  headers.any (fun p => strToLower (strTrim p.1) == target)

/-- The header-construction portion of `cmPostJSON` (lines 657-677; the
`cmGetJSON` variant differs only in the absence of `Content-Type`): fixed
browser-imitating headers, the credential as the `Cookie` header, the
derived `X-XSRF-TOKEN-CM` anti-forgery token when present in the credential
and not already supplied by the caller, then the caller's extra headers,
applied last via `Header.Set`.  `extraHeaders` is a Go map; the embedding
takes its entries as a list, since Go's iteration order is unspecified. -/
def cmBuildHeaders (cookie : String)
    (extraHeaders : List (String × String)) : List (String × String) :=
  let h := headerSet [] "Accept" "application/json"
  let h := headerSet h "Content-Type" "application/json"
  let h := headerSet h "Cookie" cookie
  let h := headerSet h "Origin" "https://app-ads.apple.com"
  let h := headerSet h "Referer" "https://app-ads.apple.com/"
  let h := headerSet h "X-Requested-With" "XMLHttpRequest"
  let h := headerSet h "User-Agent"
    "Mozilla/5.0 (Macintosh; Intel Mac OS X 10_15_7) AppleWebKit/537.36 (KHTML, like Gecko) Chrome/122.0.0.0 Safari/537.36"
  let token := cookieValue cookie "XSRF-TOKEN-CM"
  let h :=
    if !(token == "") && !hasHeaderCaseInsensitive extraHeaders "X-XSRF-TOKEN-CM"
    then headerSet h "X-XSRF-TOKEN-CM" token
    else h
  extraHeaders.foldl (fun acc p => headerSet acc p.1 p.2) h

/-! ## Target resolution (`adam_id.go`) -/

/-- `strings.ToUpper` on the ASCII range. -/
def strToUpper (s : String) : String := ⟨s.data.map asciiUpperChar⟩

/-- Digit-string value in base 10. -/
def digitsVal (ds : List Char) : Nat :=
  ds.foldl (fun acc c => acc * 10 + (c.toNat - 48)) 0

/-- `strconv.ParseInt(s, 10, 64)`: optional sign, non-empty ASCII digit
run, value within the int64 range; `none` models any parse error. -/
def goParseInt64 (s : String) : Option Int :=
  let signAndDigits : Int × List Char :=
    match s.data with
    | '+' :: rest => (1, rest)
    | '-' :: rest => (-1, rest)
    | rest => (1, rest)
  let sign := signAndDigits.1
  let ds := signAndDigits.2
  if s.data.isEmpty || ds.isEmpty then none
  else if ds.all isDigit then
    let v : Int := sign * (digitsVal ds : Int)
    if decide (-(2 ^ 63) ≤ v) && decide (v ≤ 2 ^ 63 - 1) then some v
    else none
  else none

/-- Leftmost match of the regular expression `id([0-9]{5,})`
(`appStoreIDPattern`): the capture group of the leftmost occurrence of
`id` followed by at least five digits, with the digit run taken
greedily. -/
def findAppStoreID : List Char → Option (List Char)
  | [] => none
  | 'i' :: 'd' :: rest =>
    let run := rest.takeWhile isDigit
    if run.length ≥ 5 then some run
    else findAppStoreID ('d' :: rest)
  | _ :: rest => findAppStoreID rest

/-- `parseAdamIDFromText` (`adam_id.go` lines 140-150). -/
def parseAdamIDFromText (s : String) : Int :=
  match findAppStoreID s.data with
  | none => 0
  | some run =>
    match goParseInt64 (strTrim ⟨run⟩) with
    | none => 0
    | some n => if n ≤ 0 then 0 else n

/-- The components of a parsed `net/url.URL` that
`parseAdamIDFromAppURL` reads. -/
structure GoURL where
  path : List Char
  rawPath : List Char
  query : List Char

/-- Drops everything up to and including the first `://`. -/
def dropThroughSep : List Char → List Char
  | [] => []
  | ':' :: '/' :: '/' :: rest => rest
  | _ :: rest => dropThroughSep rest

/-- `net/url.Parse`, modelled for the inputs `parseAdamIDFromAppURL` feeds
it: a string containing `://` (the caller prepends `https://` otherwise)
and free of percent-encoding, in which case `URL.RawPath` is empty and no
parse error occurs.  The fragment is cut at the first `#`, the query at the
first `?`, the authority extends to the first `/` after the scheme
separator, and the path is the remainder. -/
def goURLParse (s : String) : GoURL :=
  let cs := s.data.takeWhile (fun c => !(c == '#'))
  let beforeQ := cs.takeWhile (fun c => !(c == '?'))
  let afterQ := (cs.dropWhile (fun c => !(c == '?'))).drop 1
  let rest := dropThroughSep beforeQ
  let path := rest.dropWhile (fun c => !(c == '/'))
  { path := path, rawPath := [], query := afterQ }

/-- `url.Values.Get("id")` over the raw query: first `key=value` segment
(split on `&`) whose key is `id`. -/
def queryGetID : List (List Char) → List Char
  | [] => []
  | seg :: rest =>
    let k := seg.takeWhile (fun c => !(c == '='))
    if k == "id".data then (seg.dropWhile (fun c => !(c == '='))).drop 1
    else queryGetID rest

/-- `parseAdamIDFromAppURL` (`adam_id.go` lines 101-138). -/
def parseAdamIDFromAppURL (raw : String) : Except String Int :=
  let s := strTrim raw
  if s == "" then .error "empty value"
  else
    let direct : Option Int :=
      match goParseInt64 s with
      | some n => if n > 0 then some n else none
      | none => none
    match direct with
    | some n => .ok n
    | none =>
      let s2 : String :=
        if strContains s "://" then s
        else ⟨"https://".data ++ s.data.dropWhile (fun c => c == '/')⟩
      let u := goURLParse s2
      let fromPath := parseAdamIDFromText ⟨u.path⟩
      if fromPath > 0 then .ok fromPath
      else
        let fromRaw := parseAdamIDFromText ⟨u.rawPath⟩
        if fromRaw > 0 then .ok fromRaw
        else
          let qid := strTrim ⟨queryGetID (splitChar '&' [] u.query)⟩
          let fromQ : Option Int :=
            if qid == "" then none
            else
              match goParseInt64 qid with
              | some n => if n > 0 then some n else none
              | none => none
          match fromQ with
          | some n => .ok n
          | none =>
            let fromText := parseAdamIDFromText raw
            if fromText > 0 then .ok fromText
            else .error ("could not find adam-id in \"" ++ raw ++ "\"")

/-- The resolution error taxonomy of `resolveAdamIDFromFlags`:
`errors.Is(err, errAdamIDNotProvided)` in the caller distinguishes the
wrapped not-provided sentinel from every other failure. -/
inductive ResolveErr where
  | notProvided (msg : String)
  | failure (msg : String)
deriving DecidableEq

/-- The target-hint flags read by `resolveAdamIDFromFlags`. -/
structure AdamFlags where
  adamID : Int
  appURL : String
  bundleID : String
  appName : String
  adamCountry : String

/-- The external iTunes lookup collaborators (`lookupAdamIDByBundleID` and
`searchAdamIDByAppName` as black boxes, per the spec's component
boundary): given the hint and the lookup country they either fail or yield
an adam id together with diagnostic names. -/
structure AdamEnv where
  lookupBundle : String → String → Except String (Int × String)
  searchName : String → String → Except String (Int × String × String)

/-- `adamLookupCountry` (`adam_id.go` lines 89-99). -/
def adamLookupCountry (fl : AdamFlags) (countries : List String) : String :=
  let cc := strToUpper (strTrim fl.adamCountry)
  if !(cc == "") then cc
  else
    match countries with
    | c0 :: _ => if !(strTrim c0 == "") then strToUpper (strTrim c0) else "US"
    | [] => "US"

/-- `resolveAdamIDFromFlags` (`adam_id.go` lines 42-87): explicit id, then
app-URL hint, then bundle-id lookup, then app-name search, else the
distinguished not-provided error. -/
def resolveAdamIDFromFlags (env : AdamEnv) (fl : AdamFlags)
    (countries : List String) : Except ResolveErr Int :=
  if fl.adamID > 0 then .ok fl.adamID
  else if !(strTrim fl.appURL == "") then
    match parseAdamIDFromAppURL fl.appURL with
    | .error e => .error (.failure ("parse --app-url: " ++ e))
    | .ok id => .ok id
  else
    let lookupCountry := adamLookupCountry fl countries
    let bundleID := strTrim fl.bundleID
    if !(bundleID == "") then
      match env.lookupBundle bundleID lookupCountry with
      | .error e => .error (.failure ("resolve from --bundle-id: " ++ e))
      | .ok r => .ok r.1
    else
      let appName := strTrim fl.appName
      if !(appName == "") then
        match env.searchName appName lookupCountry with
        | .error e => .error (.failure ("resolve from --app-name: " ++ e))
        | .ok r => .ok r.1
      else
        .error (.notProvided
          "adam-id not provided: --adam-id is required (or provide --app-url, --bundle-id, or --app-name)")

/-! ## JSON response bodies and the response classifier
(`parseCMKeywordData` / `parseCMCampaignData`) -/

/-- A parsed JSON document.  Numbers are restricted to integers, which
covers every numeric field of the three envelope shapes (all are Go `int` /
`int64` fields). Bodies that are not valid JSON (on which all three
unmarshal attempts fail syntactically) always reach the unrecognized-shape
branch and are outside this type. -/
inductive JValue where
  | null
  | bool (b : Bool)
  | num (n : Int)
  | str (s : String)
  | arr (xs : List JValue)
  | obj (fields : List (String × JValue))

/-- Unmarshalling a JSON value into a Go `string` field holding `cur`:
strings assign, `null` is a no-op, anything else is a type error
(`encoding/json` semantics). -/
def stepStr (cur : String) : JValue → Option String
  | .str s => some s
  | .null => some cur
  | _ => none

/-- `int64` bounds used by `encoding/json` when decoding into `int64`/`int`
fields. -/
def int64Lo : Int := -(2 ^ 63)

def int64Hi : Int := 2 ^ 63 - 1

/-- Unmarshalling a JSON value into a Go integer field holding `cur`. -/
def stepInt (cur : Int) : JValue → Option Int
  | .num n =>
    if decide (int64Lo ≤ n) && decide (n ≤ int64Hi) then some n else none
  | .null => some cur
  | _ => none

/-- One step of decoding a JSON object into `cmKeywordItem`: Go matches
each incoming key to a struct field preferring an exact match but also
accepting a case-insensitive match (all four field tags here have distinct
folded names), later duplicate keys overwrite, and unknown keys are
ignored. -/
def itemFieldStep (acc : Option CmKeywordItem) (kv : String × JValue) :
    Option CmKeywordItem :=
  match acc with
  | none => none
  | some it =>
    if eqFold kv.1 "id" then (stepInt it.id kv.2).map (fun n => { it with id := n })
    else if eqFold kv.1 "name" then
      (stepStr it.name kv.2).map (fun s => { it with name := s })
    else if eqFold kv.1 "popularity" then
      (stepInt it.popularity kv.2).map (fun n => { it with popularity := n })
    else if eqFold kv.1 "matchType" then
      (stepStr it.matchType kv.2).map (fun s => { it with matchType := s })
    else some it

/-- `json.Unmarshal` into `cmKeywordItem`. -/
def unmarshalKeywordItem : JValue → Option CmKeywordItem
  | .null => some ⟨0, "", 0, ""⟩
  | .obj fields => fields.foldl itemFieldStep (some ⟨0, "", 0, ""⟩)
  | _ => none

/-- `cmSuccessResponse`. -/
structure CmSuccessR where
  requestID : String
  status : String
  data : List CmKeywordItem
deriving DecidableEq

/-- Unmarshalling a JSON value into the `data []cmKeywordItem` field. -/
def stepItems (cur : List CmKeywordItem) : JValue → Option (List CmKeywordItem)
  | .arr xs => xs.mapM unmarshalKeywordItem
  | .null => some cur
  | _ => none

/-- One step of decoding a JSON object into `cmSuccessResponse`. -/
def successFieldStep (acc : Option CmSuccessR) (kv : String × JValue) :
    Option CmSuccessR :=
  match acc with
  | none => none
  | some r =>
    if eqFold kv.1 "requestID" then
      (stepStr r.requestID kv.2).map (fun s => { r with requestID := s })
    else if eqFold kv.1 "status" then
      (stepStr r.status kv.2).map (fun s => { r with status := s })
    else if eqFold kv.1 "data" then
      (stepItems r.data kv.2).map (fun l => { r with data := l })
    else some r

/-- `json.Unmarshal` into `cmSuccessResponse`: `some` exactly when Go
returns a nil error. -/
def unmarshalSuccess : JValue → Option CmSuccessR
  | .null => some ⟨"", "", []⟩
  | .obj fields => fields.foldl successFieldStep (some ⟨"", "", []⟩)
  | _ => none

/-- `cmCampaignItem`. -/
structure CmCampaignItem where
  id : Int
  name : String
  adamID : Int
deriving DecidableEq

/-- One step of decoding a JSON object into `cmCampaignItem`. -/
def campaignItemFieldStep (acc : Option CmCampaignItem)
    (kv : String × JValue) : Option CmCampaignItem :=
  match acc with
  | none => none
  | some it =>
    if eqFold kv.1 "id" then (stepInt it.id kv.2).map (fun n => { it with id := n })
    else if eqFold kv.1 "name" then
      (stepStr it.name kv.2).map (fun s => { it with name := s })
    else if eqFold kv.1 "adamId" then
      (stepInt it.adamID kv.2).map (fun n => { it with adamID := n })
    else some it

/-- `json.Unmarshal` into `cmCampaignItem`. -/
def unmarshalCampaignItem : JValue → Option CmCampaignItem
  | .null => some ⟨0, "", 0⟩
  | .obj fields => fields.foldl campaignItemFieldStep (some ⟨0, "", 0⟩)
  | _ => none

/-- `cmCampaignFindResponse`. -/
structure CmCampaignFindR where
  requestID : String
  status : String
  data : List CmCampaignItem
deriving DecidableEq

/-- One step of decoding a JSON object into `cmCampaignFindResponse`. -/
def campaignFieldStep (acc : Option CmCampaignFindR) (kv : String × JValue) :
    Option CmCampaignFindR :=
  match acc with
  | none => none
  | some r =>
    if eqFold kv.1 "requestID" then
      (stepStr r.requestID kv.2).map (fun s => { r with requestID := s })
    else if eqFold kv.1 "status" then
      (stepStr r.status kv.2).map (fun s => { r with status := s })
    else if eqFold kv.1 "data" then
      (match kv.2 with
       | .arr xs => (xs.mapM unmarshalCampaignItem).map (fun l => { r with data := l })
       | .null => some r
       | _ => none)
    else some r

/-- `json.Unmarshal` into `cmCampaignFindResponse`. -/
def unmarshalCampaignFind : JValue → Option CmCampaignFindR
  | .null => some ⟨"", "", []⟩
  | .obj fields => fields.foldl campaignFieldStep (some ⟨"", "", []⟩)
  | _ => none

/-- `cmErrorResponse` (the flat error envelope). -/
structure CmErrorR where
  errorMsg : String
  errorCode : String
  internalErrorCode : String
deriving DecidableEq

/-- One step of decoding a JSON object into `cmErrorResponse`. -/
def errorFieldStep (acc : Option CmErrorR) (kv : String × JValue) :
    Option CmErrorR :=
  match acc with
  | none => none
  | some r =>
    if eqFold kv.1 "errorMsg" then
      (stepStr r.errorMsg kv.2).map (fun s => { r with errorMsg := s })
    else if eqFold kv.1 "errorCode" then
      (stepStr r.errorCode kv.2).map (fun s => { r with errorCode := s })
    else if eqFold kv.1 "internalErrorCode" then
      (stepStr r.internalErrorCode kv.2).map
        (fun s => { r with internalErrorCode := s })
    else some r

/-- `json.Unmarshal` into `cmErrorResponse`. -/
def unmarshalError : JValue → Option CmErrorR
  | .null => some ⟨"", "", ""⟩
  | .obj fields => fields.foldl errorFieldStep (some ⟨"", "", ""⟩)
  | _ => none

/-- One sub-error of `cmErrorNestedResponse`. -/
structure CmNestedSubError where
  messageCode : String
  message : String
  field : String
deriving DecidableEq

/-- One step of decoding a JSON object into a nested sub-error. -/
def subErrorFieldStep (acc : Option CmNestedSubError) (kv : String × JValue) :
    Option CmNestedSubError :=
  match acc with
  | none => none
  | some r =>
    if eqFold kv.1 "messageCode" then
      (stepStr r.messageCode kv.2).map (fun s => { r with messageCode := s })
    else if eqFold kv.1 "message" then
      (stepStr r.message kv.2).map (fun s => { r with message := s })
    else if eqFold kv.1 "field" then
      (stepStr r.field kv.2).map (fun s => { r with field := s })
    else some r

/-- `json.Unmarshal` into one nested sub-error. -/
def unmarshalSubError : JValue → Option CmNestedSubError
  | .null => some ⟨"", "", ""⟩
  | .obj fields => fields.foldl subErrorFieldStep (some ⟨"", "", ""⟩)
  | _ => none

/-- `cmErrorNestedResponse`, flattened to the `error.errors` list the code
reads. -/
structure CmErrorNestedR where
  requestID : String
  status : String
  errors : List CmNestedSubError
deriving DecidableEq

/-- Decoding the inner anonymous `error` struct: only its `errors` list. -/
def nestedErrorObjStep (acc : Option (List CmNestedSubError))
    (kv : String × JValue) : Option (List CmNestedSubError) :=
  match acc with
  | none => none
  | some cur =>
    if eqFold kv.1 "errors" then
      match kv.2 with
      | .arr xs => xs.mapM unmarshalSubError
      | .null => some cur
      | _ => none
    else some cur

/-- One step of decoding a JSON object into `cmErrorNestedResponse`. -/
def nestedFieldStep (acc : Option CmErrorNestedR) (kv : String × JValue) :
    Option CmErrorNestedR :=
  match acc with
  | none => none
  | some r =>
    if eqFold kv.1 "requestID" then
      (stepStr r.requestID kv.2).map (fun s => { r with requestID := s })
    else if eqFold kv.1 "status" then
      (stepStr r.status kv.2).map (fun s => { r with status := s })
    else if eqFold kv.1 "error" then
      (match kv.2 with
       | .obj inner =>
         (inner.foldl nestedErrorObjStep (some r.errors)).map
           (fun l => { r with errors := l })
       | .null => some r
       | _ => none)
    else some r

/-- `json.Unmarshal` into `cmErrorNestedResponse`. -/
def unmarshalNested : JValue → Option CmErrorNestedR
  | .null => some ⟨"", "", []⟩
  | .obj fields => fields.foldl nestedFieldStep (some ⟨"", "", []⟩)
  | _ => none

/-- The success-envelope test of branch 1 of the classifier: unmarshal
succeeded and the status is empty or case-insensitively "success". -/
def successBranchFires (body : JValue) : Bool :=
  match unmarshalSuccess body with
  | some r => r.status == "" || eqFold r.status "success"
  | none => false

/-- The success-envelope test of branch 1 of `parseCMCampaignData`. -/
def campaignBranchFires (body : JValue) : Bool :=
  match unmarshalCampaignFind body with
  | some r => r.status == "" || eqFold r.status "success"
  | none => false

/-- Branches 2-4 of the classifier, shared verbatim by `parseCMKeywordData`
and `parseCMCampaignData` (lines 566-579 and 586-599): flat error envelope,
nested error envelope, else the raw body echoed.  `raw` is the raw body
text that `body` parses from, used only by the unrecognized-shape
branch. -/
def parseCMErrorBranches (endpoint raw : String) (body : JValue) : String :=
  let unexpected := "cm " ++ endpoint ++ ": unexpected response: " ++ strTrim raw
  let nested : String :=
    match unmarshalNested body with
    | some n =>
      match n.errors with
      | first :: _ =>
        "cm " ++ endpoint ++ " error (" ++ strTrim first.messageCode ++ "): " ++
          strTrim first.message
      | [] => unexpected
    | none => unexpected
  match unmarshalError body with
  | some er =>
    if !(er.errorMsg == "") || !(er.errorCode == "") || !(er.internalErrorCode == "")
    then
      "cm " ++ endpoint ++ " error (" ++ strTrim er.errorCode ++ "/" ++
        strTrim er.internalErrorCode ++ "): " ++ strTrim er.errorMsg
    else nested
  | none => nested

/-- `parseCMKeywordData` (`cm_keywords.go` lines 582-600).  `raw` is the
raw body text, `body` the JSON document it parses to. -/
def parseCMKeywordData (endpoint raw : String) (body : JValue) :
    Except String (List CmKeywordItem) :=
  match unmarshalSuccess body with
  | some r =>
    if r.status == "" || eqFold r.status "success" then .ok r.data
    else .error (parseCMErrorBranches endpoint raw body)
  | none => .error (parseCMErrorBranches endpoint raw body)

/-- `parseCMCampaignData` (`cm_keywords.go` lines 562-580). -/
def parseCMCampaignData (endpoint raw : String) (body : JValue) :
    Except String (List CmCampaignItem) :=
  match unmarshalCampaignFind body with
  | some r =>
    if r.status == "" || eqFold r.status "success" then .ok r.data
    else .error (parseCMErrorBranches endpoint raw body)
  | none => .error (parseCMErrorBranches endpoint raw body)

/-! ## The per-country retry loop (`newASOPopscoreCmd` lines 129-156 and
`newASORecommendCmd` lines 241-265) -/

/-- A stub client driving one outer query execution: `call i cookie adamID`
is the outcome of the `i`-th data-fetch API call (`cmKeywordPopularities` /
`cmKeywordRecommendation`), `discover j cookie` the outcome of the `j`-th
owned-target discovery (`cmDiscoverOwnedAdamID`), and `refresh k` the
outcome of the `k`-th interactive credential refresh
(`refreshCMCookieFromFlags`), all carrying `err.Error()` text on
failure. -/
structure StubEnv where
  call : Nat → String → Int → Except String (List CmKeywordItem)
  discover : Nat → String → Except String (Int × String)
  refresh : Nat → Except String String

/-- The mutable state the loop threads across country iterations (the
`cookie`, `adamID` and `attemptedOwnedAdamFallback` variables closed over
by the loop), instrumented with counters of the calls issued so far. -/
structure LoopState where
  cookie : String
  adamID : Int
  attemptedOwnedAdamFallback : Bool
  calls : Nat
  discoveries : Nat
  refreshes : Nat
  fallbacks : Nat
deriving DecidableEq

/-- Initial loop state after flag handling and target resolution. -/
def initLoopState (cookie : String) (adamID : Int) : LoopState :=
  ⟨cookie, adamID, false, 0, 0, 0, 0⟩

/-- The remaining owned-target fallback allowance: 1 while the
once-per-execution flag is unset, 0 afterwards. -/
def fallbackBudget (st : LoopState) : Nat :=
  if st.attemptedOwnedAdamFallback then 0 else 1

/-- `discoverOwnedAdamIDWithRefresh` (`cm_keywords.go` lines 444-478): one
discovery call, with one nested credential refresh (and one retry of the
discovery) when the failure classifies as a refresh error and auto-cookie
is enabled.  On refresh failure the refresher returns an empty cookie
string, which the function passes back. -/
def discoverOwnedAdamIDWithRefresh (env : StubEnv) (autoCookie : Bool)
    (st : LoopState) : LoopState × Except String Int :=
  let r1 := env.discover st.discoveries st.cookie
  let st1 := { st with discoveries := st.discoveries + 1 }
  match r1 with
  | .ok res => (st1, .ok res.1)
  | .error e =>
    if autoCookie && isCMRefreshErrorStr e then
      let st2 := { st1 with refreshes := st1.refreshes + 1 }
      match env.refresh st1.refreshes with
      | .error re => ({ st2 with cookie := "" }, .error re)
      | .ok c =>
        let st3 := { st2 with cookie := c }
        let r2 := env.discover st3.discoveries st3.cookie
        let st4 := { st3 with discoveries := st3.discoveries + 1 }
        match r2 with
        | .ok res => (st4, .ok res.1)
        | .error e2 => (st4, .error e2)
    else (st1, .error e)

/-- Outcome of the credential-refresh branch of one country iteration:
either the command aborts inside the branch (`return err` after a failed
refresh) or control continues to the fallback check with the current call
outcome. -/
inductive StepOut where
  | abort (msg : String)
  | cont (r : Except String (List CmKeywordItem))

/-- The initial call and the credential-refresh branch of one country
iteration (`newASOPopscoreCmd` lines 132-140, `newASORecommendCmd` lines
244-252): call the API; on a refresh-classified failure with auto-cookie
enabled, refresh the credential (a refresh failure aborts the command)
and re-call. -/
def runCountryRefreshStep (env : StubEnv) (autoCookie : Bool)
    (st0 : LoopState) : LoopState × StepOut :=
  let r1 := env.call st0.calls st0.cookie st0.adamID
  let stA := { st0 with calls := st0.calls + 1 }
  match r1 with
  | .ok items => (stA, .cont (.ok items))
  | .error e =>
    if autoCookie && isCMRefreshErrorStr e then
      let st2 := { stA with refreshes := stA.refreshes + 1 }
      match env.refresh stA.refreshes with
      | .error re => ({ st2 with cookie := "" }, .abort re)
      | .ok c =>
        let st3 := { st2 with cookie := c }
        let r2 := env.call st3.calls st3.cookie st3.adamID
        ({ st3 with calls := st3.calls + 1 }, .cont r2)
    else (stA, .cont (.error e))

/-- The owned-target fallback branch of one country iteration
(`newASOPopscoreCmd` lines 141-153, `newASORecommendCmd` lines 253-265):
on a not-owned-classified failure, if the once-per-execution flag is
unused, set it, discover an owned target (with its nested refresh), switch
the working target id if it differs, and re-call. -/
def runCountryFallbackStep (env : StubEnv) (autoCookie : Bool)
    (st : LoopState) (r2 : Except String (List CmKeywordItem)) :
    LoopState × Except String (List CmKeywordItem) :=
  match r2 with
  | .ok items => (st, .ok items)
  | .error e =>
    if !st.attemptedOwnedAdamFallback && isCMNoUserOwnedAppsErrorStr e then
      let stB := { st with attemptedOwnedAdamFallback := true,
                           fallbacks := st.fallbacks + 1 }
      match discoverOwnedAdamIDWithRefresh env autoCookie stB with
      | (stC, .error de) =>
        (stC, .error
          ("adam-id is not accessible for this Apple Ads account, and auto-discovery failed: "
            ++ de))
      | (stC, .ok owned) =>
        let stD :=
          if decide (owned > 0) && !(owned == stC.adamID) then
            { stC with adamID := owned }
          else stC
        let r3 := env.call stD.calls stD.cookie stD.adamID
        ({ stD with calls := stD.calls + 1 }, r3)
    else (st, .error e)

/-- One country iteration of the retry loop shared by `newASOPopscoreCmd`
(lines 131-156) and `newASORecommendCmd` (lines 243-268): call, refresh
the credential and re-call when the failure classifies as a refresh error
and auto-cookie is enabled, run the owned-target fallback (guarded by the
once-per-execution flag) and re-call when the failure classifies as
not-owned, and otherwise return the error, which aborts the command. -/
def runCountry (env : StubEnv) (autoCookie : Bool) (st0 : LoopState) :
    LoopState × Except String (List CmKeywordItem) :=
  match runCountryRefreshStep env autoCookie st0 with
  | (st, .abort m) => (st, .error m)
  | (st, .cont r2) => runCountryFallbackStep env autoCookie st r2

/-- The loop over the requested countries: a failing iteration returns its
error from the command (`return err`), aborting the remaining
countries. -/
def runLoop (env : StubEnv) (autoCookie : Bool) :
    List String → LoopState → LoopState × Except String Unit
  | [], st => (st, .ok ())
  | _ :: rest, st =>
    match runCountry env autoCookie st with
    | (st2, .ok _) => runLoop env autoCookie rest st2
    | (st2, .error e) => (st2, .error e)

/-! # Shared helper lemmas -/

/-- An error text containing the not-owned sentinel is never classified as
a refresh error (the sentinel check comes first in `isCMRefreshError`). -/
theorem not_refresh_of_noOwned {e : String}
    (h : isCMNoUserOwnedAppsErrorStr e = true) :
    isCMRefreshErrorStr e = false := by
  unfold isCMNoUserOwnedAppsErrorStr at h
  unfold isCMRefreshErrorStr
  simp [h]

/-- An error text classified as a refresh error does not contain the
not-owned sentinel. -/
theorem not_noOwned_of_refresh {e : String}
    (h : isCMRefreshErrorStr e = true) :
    isCMNoUserOwnedAppsErrorStr e = false := by
  unfold isCMNoUserOwnedAppsErrorStr
  cases hs : strContains (strToLower e) "no_user_owned_apps_found_code"
  · rfl
  · exfalso
    unfold isCMRefreshErrorStr at h
    simp [hs] at h

/-! # Claim C3 -/

/-- C3 counterexample: an error text containing both the internal-code
"refresh" tag and the not-owned sentinel satisfies the claim's
classification rule (its first disjunct holds, and the sentinel only
excludes the 403 disjunct) yet the code does not classify it
`CredentialExpired`: `isCMRefreshError` returns false whenever the
sentinel occurs anywhere in the text. -/
theorem c3_counterexample :
    credentialExpiredSpecC3
      "internalerrorcode\":\"refresh no_user_owned_apps_found_code" = true ∧
    isCMRefreshError
      (some "internalerrorcode\":\"refresh no_user_owned_apps_found_code")
      = false := by decide

/-- C3 (amended): `CredentialExpired` holds exactly when the lowered error
text does not contain the not-owned sentinel and contains the "refresh"
internal-code tag, or the literal "user is not logged in", or the HTTP-403
marker — the sentinel's absence is required by all three disjuncts, not
only the 403 one.  In particular an error whose text is "user is not
logged in" is classified `CredentialExpired`. -/
theorem c3_classification_amended :
    (∀ e : String,
      isCMRefreshError (some e) = true ↔
        (strContains (strToLower e) "no_user_owned_apps_found_code" = false ∧
         (strContains (strToLower e) "internalerrorcode\":\"refresh" = true ∨
          strContains (strToLower e) "user is not logged in" = true ∨
          strContains (strToLower e) "cm endpoint http 403" = true))) ∧
    isCMRefreshError (some "user is not logged in") = true := by
  constructor
  · intro e
    show isCMRefreshErrorStr e = true ↔ _
    unfold isCMRefreshErrorStr
    cases hs : strContains (strToLower e) "no_user_owned_apps_found_code" <;>
      simp [hs] <;> tauto
  · decide

/-! # Claim C4 -/

/-- C4: every body that unmarshals as the success envelope whose status
field is omitted, empty, or case-insensitively "success" is classified
Success, and the returned item list is exactly the envelope's data list in
order. -/
theorem c4_success_envelope (endpoint raw : String) (body : JValue)
    (r : CmSuccessR) (h : unmarshalSuccess body = some r)
    (hstatus : r.status = "" ∨ eqFold r.status "success" = true) :
    parseCMKeywordData endpoint raw body = .ok r.data := by
  unfold parseCMKeywordData
  rw [h]
  have hcond : (r.status == "" || eqFold r.status "success") = true := by
    rcases hstatus with h1 | h1
    · simp [h1]
    · simp [h1]
  simp [hcond]

/-- Witness for C4: a concrete body with status "SuCCess" and two data
items is classified Success with both items in their original order. -/
theorem c4_witness :
    parseCMKeywordData "popularities" "raw"
      (.obj [("status", .str "SuCCess"),
             ("data", .arr [.obj [("name", .str "b"), ("popularity", .num 2)],
                            .obj [("name", .str "a"), ("popularity", .num 9)]])])
      = .ok [⟨0, "b", 2, ""⟩, ⟨0, "a", 9, ""⟩] :=
  c4_success_envelope "popularities" "raw" _
    ⟨"", "SuCCess", [⟨0, "b", 2, ""⟩, ⟨0, "a", 9, ""⟩]⟩ (by rfl)
    (.inr (by decide))

/-! # Claim C1 -/

/-- C1 counterexample: a flat error envelope carrying all three error
fields non-empty — but, like every flat error envelope, no status field —
also unmarshals as the success envelope with an empty status, so branch 1
fires first and both classifiers return Success with an empty item list
instead of an error carrying the three fields. -/
theorem c1_counterexample :
    unmarshalError
        (.obj [("errorMsg", .str "boom"), ("errorCode", .str "AUTH"),
               ("internalErrorCode", .str "refresh_required")])
      = some ⟨"boom", "AUTH", "refresh_required"⟩ ∧
    parseCMKeywordData "popularities" "raw"
        (.obj [("errorMsg", .str "boom"), ("errorCode", .str "AUTH"),
               ("internalErrorCode", .str "refresh_required")])
      = .ok [] ∧
    parseCMCampaignData "campaigns/find" "raw"
        (.obj [("errorMsg", .str "boom"), ("errorCode", .str "AUTH"),
               ("internalErrorCode", .str "refresh_required")])
      = .ok [] :=
  ⟨rfl, rfl, rfl⟩

/-- C1 (amended): for every body that is a flat error envelope (any of the
three error fields non-empty) and on which the success-envelope branch
does not fire (in particular, whenever the body carries a status field
that is neither empty nor "success"), both classifiers return an error
whose text is the three fields formatted together; a flat error envelope
without a status field is instead classified as Success with an empty
item list, as the counterexample shows. -/
theorem c1_flat_error_envelope (endpoint raw : String) (body : JValue)
    (er : CmErrorR) (hflat : unmarshalError body = some er)
    (hnonempty :
      ¬(er.errorMsg = "" ∧ er.errorCode = "" ∧ er.internalErrorCode = ""))
    (hk : successBranchFires body = false)
    (hc : campaignBranchFires body = false) :
    parseCMKeywordData endpoint raw body =
      .error ("cm " ++ endpoint ++ " error (" ++ strTrim er.errorCode ++ "/" ++
        strTrim er.internalErrorCode ++ "): " ++ strTrim er.errorMsg) ∧
    parseCMCampaignData endpoint raw body =
      .error ("cm " ++ endpoint ++ " error (" ++ strTrim er.errorCode ++ "/" ++
        strTrim er.internalErrorCode ++ "): " ++ strTrim er.errorMsg) := by
  have herr : parseCMErrorBranches endpoint raw body =
      "cm " ++ endpoint ++ " error (" ++ strTrim er.errorCode ++ "/" ++
        strTrim er.internalErrorCode ++ "): " ++ strTrim er.errorMsg := by
    unfold parseCMErrorBranches
    rw [hflat]
    have hne : (!(er.errorMsg == "") || !(er.errorCode == "") ||
        !(er.internalErrorCode == "")) = true := by
      simp only [Bool.or_eq_true, Bool.not_eq_true', beq_eq_false_iff_ne,
        ne_eq]
      by_contra hcontra
      push_neg at hcontra
      exact hnonempty ⟨hcontra.1.1, hcontra.1.2, hcontra.2⟩
    simp [hne]
  refine ⟨?_, ?_⟩
  · unfold parseCMKeywordData
    unfold successBranchFires at hk
    cases hus : unmarshalSuccess body with
    | none => simp [herr]
    | some r =>
      rw [hus] at hk
      simp only [] at hk
      simp only []
      rw [hk]
      simp [herr]
  · unfold parseCMCampaignData
    unfold campaignBranchFires at hc
    cases hus : unmarshalCampaignFind body with
    | none => simp [herr]
    | some r =>
      rw [hus] at hc
      simp only [] at hc
      simp only []
      rw [hc]
      simp [herr]

/-- Witness for C1 (amended): a flat error envelope that also carries a
status field "error" reaches the flat-error branch and both classifiers
return the formatted error. -/
theorem c1_witness :
    parseCMKeywordData "popularities" "raw"
        (.obj [("status", .str "error"), ("errorMsg", .str "boom"),
               ("errorCode", .str "AUTH"), ("internalErrorCode", .str "x")])
      = .error ("cm " ++ "popularities" ++ " error (" ++ strTrim "AUTH" ++
          "/" ++ strTrim "x" ++ "): " ++ strTrim "boom") ∧
    parseCMCampaignData "popularities" "raw"
        (.obj [("status", .str "error"), ("errorMsg", .str "boom"),
               ("errorCode", .str "AUTH"), ("internalErrorCode", .str "x")])
      = .error ("cm " ++ "popularities" ++ " error (" ++ strTrim "AUTH" ++
          "/" ++ strTrim "x" ++ "): " ++ strTrim "boom") :=
  c1_flat_error_envelope "popularities" "raw" _ ⟨"boom", "AUTH", "x"⟩
    (by rfl) (by decide) (by rfl) (by rfl)

/-! # Claim C8 -/

/-- C8: credential loading: an explicit (non-blank) `--cookie` value makes
the file irrelevant; a loaded file value with the case-insensitive
`cookie:` prefix has the prefix stripped and the remainder trimmed; and a
missing cookie file yields the empty (not-found) credential, which invokes
the refresher when auto-refresh is enabled and is an error only when
auto-refresh is disabled. -/
theorem c8_cookie_loading :
    (∀ a fl file file2 auto r, strTrim a ≠ "" →
        getCookieFlag a fl file auto r = getCookieFlag a fl file2 auto r) ∧
    (∀ fl b auto r, strTrim fl ≠ "" →
        charsStartWith (strToLower (strTrim b)).data "cookie:".data = true →
        strTrim ⟨(strTrim b).data.drop 7⟩ ≠ "" →
        getCookieFlag "" fl (.contents b) auto r =
          .ok (strTrim ⟨(strTrim b).data.drop 7⟩)) ∧
    (∀ a fl r, strTrim a = "" →
        getCookieFlag a fl .notExist true r = r ∧
        getCookieFlag a fl .notExist false r =
          .error "--cookie (or --cookie-file) is required for this command") := by
  refine ⟨?_, ?_, ?_⟩
  · intro a fl file file2 auto r ha
    unfold getCookieFlag
    have hb : (strTrim a == "") = false := by simpa using ha
    simp [hb]
  · intro fl b auto r hfl hpre hne
    unfold getCookieFlag
    have h0 : (strTrim "" == "") = true := by rfl
    have h2 : (strTrim fl == "") = false := by simpa using hfl
    have h3 : (strTrim ⟨(strTrim b).data.drop 7⟩ == "") = false := by
      simpa using hne
    simp [h0, h2, hpre, h3]
  · intro a fl r ha
    unfold getCookieFlag
    cases hfl : (strTrim fl == "") <;> simp [ha, hfl, charsStartWith]

/-- Witness for C8: a file value "` Cookie: abc `" loads as "abc"; a
missing file with auto-refresh enabled invokes the refresher, and with it
disabled yields the required-flag error. -/
theorem c8_witness :
    getCookieFlag "" "f" (.contents " Cookie: abc ") true (.ok "z")
      = .ok "abc" ∧
    getCookieFlag "" "f" .notExist true (.ok "z") = .ok "z" ∧
    getCookieFlag "" "f" .notExist false (.ok "z") =
      .error "--cookie (or --cookie-file) is required for this command" := by
  refine ⟨?_, (c8_cookie_loading.2.2 "" "f" (.ok "z") (by rfl)).1,
    (c8_cookie_loading.2.2 "" "f" (.ok "z") (by rfl)).2⟩
  have h := c8_cookie_loading.2.1 "f" " Cookie: abc " true (.ok "z")
    (by decide) (by decide) (by decide)
  rw [h]
  have hv : strTrim ⟨(strTrim " Cookie: abc ").data.drop 7⟩ = "abc" := by
    decide
  rw [hv]

/-! # Claim C6 -/

/-- C6: target-resolution strategy order, first match wins: an explicit
positive id beats every hint; a URL hint is mined for `id<digits>` in the
parsed path, then the raw path, then the query parameter `id`, then the
raw text, and a bare positive integer is accepted as the whole hint;
otherwise the bundle-id strategy applies (before the app-name one); and
with no hints at all the resolver returns the distinguished not-provided
error rather than a failure. -/
theorem c6_resolver_priority :
    (∀ env fl countries, fl.adamID > 0 →
        resolveAdamIDFromFlags env fl countries = .ok fl.adamID) ∧
    parseAdamIDFromAppURL "https://x/id123456" = .ok 123456 ∧
    (∀ s n, goParseInt64 (strTrim s) = some n → n > 0 →
        parseAdamIDFromAppURL s = .ok n) ∧
    parseAdamIDFromAppURL "https://x/id123456?id=999999" = .ok 123456 ∧
    parseAdamIDFromAppURL "https://x/app?id=123456" = .ok 123456 ∧
    parseAdamIDFromAppURL "https://x/?q=id123456" = .ok 123456 ∧
    (∀ env env2 fl countries, ¬fl.adamID > 0 → strTrim fl.appURL ≠ "" →
        resolveAdamIDFromFlags env fl countries =
          resolveAdamIDFromFlags env2 fl countries) ∧
    (∀ env fl countries id nm, ¬fl.adamID > 0 → strTrim fl.appURL = "" →
        strTrim fl.bundleID ≠ "" →
        env.lookupBundle (strTrim fl.bundleID)
            (adamLookupCountry fl countries) = .ok (id, nm) →
        resolveAdamIDFromFlags env fl countries = .ok id) ∧
    (∀ env countries a0, a0 ≤ 0 →
        resolveAdamIDFromFlags env ⟨a0, "", "", "", ""⟩ countries =
          .error (.notProvided
            "adam-id not provided: --adam-id is required (or provide --app-url, --bundle-id, or --app-name)")) := by
  refine ⟨?_, by rfl, ?_, by rfl, by rfl, by rfl, ?_, ?_, ?_⟩
  · intro env fl countries h
    unfold resolveAdamIDFromFlags
    simp [h]
  · intro s n h hn
    have hne : (strTrim s == "") = false := by
      cases he : (strTrim s == "") with
      | false => rfl
      | true =>
        exfalso
        have hz : strTrim s = "" := by simpa using he
        rw [hz] at h
        simp [goParseInt64] at h
    unfold parseAdamIDFromAppURL
    simp [hne, h, hn]
  · intro env env2 fl countries h1 h2
    unfold resolveAdamIDFromFlags
    have hb : (strTrim fl.appURL == "") = false := by simpa using h2
    simp [h1, hb]
  · intro env fl countries id nm h1 h2 h3 h4
    unfold resolveAdamIDFromFlags
    have hb : (strTrim fl.bundleID == "") = false := by simpa using h3
    simp [h1, h2, hb, h4]
  · intro env countries a0 h
    unfold resolveAdamIDFromFlags
    have h1 : ¬((⟨a0, "", "", "", ""⟩ : AdamFlags).adamID > 0) := by
      simpa using not_lt.mpr h
    simp [h1]
    rfl

/-- Witness for C6: an explicit id wins over a URL hint even with failing
lookup collaborators, and a bare numeric hint parses directly. -/
theorem c6_witness :
    resolveAdamIDFromFlags
        ⟨fun _ _ => .error "no lookup", fun _ _ => .error "no search"⟩
        ⟨555, "https://x/id123456", "com.b", "nm", ""⟩ ["US"] = .ok 555 ∧
    parseAdamIDFromAppURL " 987654321 " = .ok 987654321 := by
  constructor
  · exact c6_resolver_priority.1 _ _ _ (by decide)
  · exact c6_resolver_priority.2.2.1 " 987654321 " 987654321 (by rfl)
      (by decide)

/-! # Claims C7 and C10: ordering and membership infrastructure -/

/-- `charsLt` is irreflexive. -/
theorem charsLt_irrefl : ∀ a : List Char, charsLt a a = false := by
  intro a
  induction a with
  | nil => rfl
  | cons x xs ih => simp [charsLt, ih, lt_irrefl]

/-- `charsLt` is asymmetric. -/
theorem charsLt_asymm :
    ∀ a b : List Char, charsLt a b = true → charsLt b a = false := by
  intro a
  induction a with
  | nil =>
    intro b h
    cases b with
    | nil => exact absurd h (by simp [charsLt])
    | cons y ys => rfl
  | cons x xs ih =>
    intro b h
    cases b with
    | nil => exact absurd h (by simp [charsLt])
    | cons y ys =>
      unfold charsLt at h ⊢
      simp only [Bool.or_eq_true, Bool.and_eq_true, decide_eq_true_eq,
        beq_iff_eq] at h
      rcases h with hlt | ⟨heq, hrec⟩
      · have h1 : ¬y < x := lt_asymm hlt
        have h2 : ¬y = x := (ne_of_gt hlt)
        simp [h1, h2]
      · subst heq
        have hxs := ih ys hrec
        simp [lt_irrefl, hxs]

/-- `charsLt` is connected: two mutually non-smaller lists are equal. -/
theorem charsLt_conn :
    ∀ a b : List Char, charsLt a b = false → charsLt b a = false → a = b := by
  intro a
  induction a with
  | nil =>
    intro b h1 _
    cases b with
    | nil => rfl
    | cons y ys => exact absurd h1 (by simp [charsLt])
  | cons x xs ih =>
    intro b h1 h2
    cases b with
    | nil => exact absurd h2 (by simp [charsLt])
    | cons y ys =>
      unfold charsLt at h1 h2
      simp only [Bool.or_eq_false_iff, Bool.and_eq_false_imp,
        decide_eq_false_iff_not, beq_iff_eq] at h1 h2
      have hxy : x = y := le_antisymm (not_lt.mp h2.1) (not_lt.mp h1.1)
      subst hxy
      have hx := ih ys (h1.2 rfl) (h2.2 rfl)
      rw [hx]

/-- `charsLt` is transitive. -/
theorem charsLt_trans :
    ∀ a b c : List Char, charsLt a b = true → charsLt b c = true →
      charsLt a c = true := by
  intro a
  induction a with
  | nil =>
    intro b c hab hbc
    cases b with
    | nil => exact absurd hab (by simp [charsLt])
    | cons y ys =>
      cases c with
      | nil => exact absurd hbc (by simp [charsLt])
      | cons z zs => simp [charsLt]
  | cons x xs ih =>
    intro b c hab hbc
    cases b with
    | nil => exact absurd hab (by simp [charsLt])
    | cons y ys =>
      cases c with
      | nil => exact absurd hbc (by simp [charsLt])
      | cons z zs =>
        unfold charsLt at hab hbc ⊢
        simp only [Bool.or_eq_true, Bool.and_eq_true, decide_eq_true_eq,
          beq_iff_eq] at hab hbc ⊢
        rcases hab with hlt1 | ⟨he1, hr1⟩ <;> rcases hbc with hlt2 | ⟨he2, hr2⟩
        · exact .inl (lt_trans hlt1 hlt2)
        · exact .inl (he2 ▸ hlt1)
        · exact .inl (he1 ▸ hlt2)
        · exact .inr ⟨he1.trans he2, ih ys zs hr1 hr2⟩

/-- The characterisation of the sort relation: `a` need not come after `b`
exactly when `a` has higher popularity, or equal popularity and a not-greater
lower-cased name. -/
theorem cmRecommendLE_iff (a b : CmKeywordItem) :
    cmRecommendLE a b ↔
      (b.popularity < a.popularity ∨
        (a.popularity = b.popularity ∧
          charsLt (strToLower b.name).data (strToLower a.name).data = false)) := by
  unfold cmRecommendLE cmRecommendLess
  split
  next hbne =>
    have hne : b.popularity ≠ a.popularity := by
      simpa [bne_iff_ne] using hbne
    constructor
    · intro hx
      have hle : ¬b.popularity > a.popularity := by simpa using hx
      exact .inl (by omega)
    · intro hx
      have hle : ¬b.popularity > a.popularity := by
        rcases hx with hlt | ⟨heq, _⟩ <;> omega
      simpa using hle
  next hbne =>
    have heq : b.popularity = a.popularity := by
      by_contra hne
      exact hbne (by simpa [bne_iff_ne] using hne)
    constructor
    · intro hx
      exact .inr ⟨heq.symm, by simpa using hx⟩
    · intro hx
      rcases hx with hlt | ⟨_, hch⟩
      · omega
      · simpa using hch

instance : IsTotal CmKeywordItem cmRecommendLE :=
  ⟨by
    intro a b
    rw [cmRecommendLE_iff, cmRecommendLE_iff]
    rcases lt_trichotomy a.popularity b.popularity with h | h | h
    · exact .inr (.inl h)
    · by_cases hc : charsLt (strToLower b.name).data
          (strToLower a.name).data = true
      · exact .inr (.inr ⟨h.symm, charsLt_asymm _ _ hc⟩)
      · exact .inl (.inr ⟨h, by simpa using hc⟩)
    · exact .inl (.inl h)⟩

instance : IsTrans CmKeywordItem cmRecommendLE :=
  ⟨by
    intro a b c hab hbc
    rw [cmRecommendLE_iff] at hab hbc ⊢
    rcases hab with h1 | ⟨h1, hn1⟩ <;> rcases hbc with h2 | ⟨h2, hn2⟩
    · exact .inl (lt_trans h2 h1)
    · exact .inl (h2 ▸ h1)
    · exact .inl (h1 ▸ h2)
    · refine .inr ⟨h1.trans h2, ?_⟩
      by_cases hac : charsLt (strToLower c.name).data
          (strToLower a.name).data = true
      · exfalso
        by_cases hbc : charsLt (strToLower b.name).data
            (strToLower c.name).data = true
        · exact absurd (charsLt_trans _ _ _ hbc hac) (by simp [hn1])
        · have heq := charsLt_conn _ _ (by simpa using hbc) hn2
          rw [heq] at hn1
          exact absurd hac (by simp [hn1])
      · simpa using hac⟩

/-- Membership description of `rowsFrom`. -/
theorem mem_rowsFrom {c s : String} :
    ∀ {l : List CmKeywordItem} {i : Nat} {row : AsoRecommendRow},
      row ∈ rowsFrom c s i l →
        ∃ j it, it ∈ l ∧ row = mkRecommendRow c s j it := by
  intro l
  induction l with
  | nil => intro i row h; simp [rowsFrom] at h
  | cons a rest ih =>
    intro i row h
    simp only [rowsFrom, List.mem_cons] at h
    rcases h with h | h
    · exact ⟨i, a, List.mem_cons_self a rest, h⟩
    · obtain ⟨j, it, hmem, hrow⟩ := ih h
      exact ⟨j, it, List.mem_cons_of_mem a hmem, hrow⟩

/-- Length of `rowsFrom`. -/
theorem rowsFrom_length (c s : String) :
    ∀ (l : List CmKeywordItem) (i : Nat), (rowsFrom c s i l).length = l.length := by
  intro l
  induction l with
  | nil => intro i; rfl
  | cons a rest ih => intro i; simp [rowsFrom, ih]

/-- Ranks of `rowsFrom` are the successive positions shifted by the start
index. -/
theorem rowsFrom_ranks (c s : String) :
    ∀ (l : List CmKeywordItem) (i : Nat),
      (rowsFrom c s i l).map (fun r => r.rank) =
        (List.range l.length).map (fun j => i + j + 1) := by
  intro l
  induction l with
  | nil => intro i; rfl
  | cons a rest ih =>
    intro i
    simp only [rowsFrom, List.map_cons, List.length_cons,
      List.range_succ_eq_map, List.map_map]
    refine congrArg₂ _ ?_ ?_
    · simp [mkRecommendRow]
    · rw [ih (i + 1)]
      refine List.map_congr_left ?_
      intro j _
      simp only [Function.comp_apply]
      omega

/-- `rowsFrom` turns a chain under the sort relation into a chain under
the spec-side row ordering. -/
theorem rowsFrom_chain (c s : String) :
    ∀ (l : List CmKeywordItem) (i : Nat), l.Chain' cmRecommendLE →
      (rowsFrom c s i l).Chain' rowLe := by
  intro l
  induction l with
  | nil => intro i _; simp [rowsFrom]
  | cons a rest ih =>
    intro i h
    cases rest with
    | nil => simp [rowsFrom]
    | cons b rest2 =>
      rw [List.chain'_cons] at h
      show List.Chain' rowLe
        (mkRecommendRow c s i a :: rowsFrom c s (i + 1) (b :: rest2))
      rw [show rowsFrom c s (i + 1) (b :: rest2) =
          mkRecommendRow c s (i + 1) b :: rowsFrom c s (i + 2) rest2 from rfl,
        List.chain'_cons]
      constructor
      · have hab := (cmRecommendLE_iff a b).mp h.1
        unfold rowLe
        rcases hab with hlt | ⟨heq, hch⟩
        · exact .inl ⟨a.popularity, b.popularity, rfl, rfl, hlt⟩
        · exact .inr ⟨by simp [mkRecommendRow, heq], by
            simpa [mkRecommendRow] using hch⟩
      · have := ih (i + 1) h.2
        simpa [rowsFrom] using this

/-- Membership description of the whole recommendation pipeline: every
output row comes from an input item that survived the filter, and carries
its name and popularity. -/
theorem mem_asoRecommendRows {c s : String} {lf mp : Int}
    {items : List CmKeywordItem} {row : AsoRecommendRow}
    (h : row ∈ asoRecommendRows c s lf mp items) :
    ∃ it, it ∈ items ∧ cmRecommendKeep mp it = true ∧
      row.term = it.name ∧ row.popularity = some it.popularity := by
  unfold asoRecommendRows at h
  obtain ⟨j, it, hmem, hrow⟩ := mem_rowsFrom h
  have hsorted : it ∈ List.insertionSort cmRecommendLE
      (items.filter (cmRecommendKeep mp)) := by
    by_cases hc : decide (((List.insertionSort cmRecommendLE
        (items.filter (cmRecommendKeep mp))).length : Int) >
          (if lf ≤ 0 then (50 : Int) else lf)) = true
    · rw [if_pos hc] at hmem
      exact List.take_subset _ _ hmem
    · rw [if_neg hc] at hmem
      exact hmem
  have hfilter : it ∈ items.filter (cmRecommendKeep mp) :=
    (List.perm_insertionSort cmRecommendLE _).subset hsorted
  rw [List.mem_filter] at hfilter
  exact ⟨it, hfilter.1, hfilter.2, by rw [hrow]; rfl, by rw [hrow]; rfl⟩

/-! # Claim C7 -/

/-- C7 counterexample: the claim includes every item with popularity at
least the threshold, but the code additionally drops items whose name is
blank after trimming: a single item with a blank name and popularity 50
produces no row at threshold 0, instead of the rank-1 row the claim
requires. -/
theorem c7_counterexample :
    asoRecommendRows "US" "plant" 2 0 [⟨1, " ", 50, ""⟩] = [] ∧
    asoRecommendRows "US" "plant" 2 0 [⟨1, " ", 50, ""⟩] ≠
      [mkRecommendRow "US" "plant" 0 ⟨1, " ", 50, ""⟩] := by
  constructor
  · rfl
  · decide

/-- C7 (amended): the output rows are built from the items with
popularity at least the threshold and a non-blank trimmed name, sorted by
descending popularity then ascending lower-cased term, truncated to the
(normalised) limit after sorting, with rank the 1-based position; on the
claim's example `[(A,5),(B,30),(C,20)]` with limit 2 and threshold 10 the
rows are B at rank 1 and C at rank 2. -/
theorem c7_recommend_rows_amended :
    (asoRecommendRows "US" "plant" 2 10
        [⟨1, "A", 5, ""⟩, ⟨2, "B", 30, ""⟩, ⟨3, "C", 20, ""⟩] =
      [mkRecommendRow "US" "plant" 0 ⟨2, "B", 30, ""⟩,
       mkRecommendRow "US" "plant" 1 ⟨3, "C", 20, ""⟩]) ∧
    (∀ c s lf mp items,
      (asoRecommendRows c s lf mp items).length =
        min (items.filter (cmRecommendKeep mp)).length
          (if lf ≤ 0 then (50 : Int) else lf).toNat) ∧
    (∀ c s lf mp items row, row ∈ asoRecommendRows c s lf mp items →
      ∃ it, it ∈ items ∧ mp ≤ it.popularity ∧ ¬strTrim it.name = "" ∧
        row.term = it.name ∧ row.popularity = some it.popularity) ∧
    (∀ c s lf mp items, (asoRecommendRows c s lf mp items).Chain' rowLe) ∧
    (∀ c s lf mp items,
      (asoRecommendRows c s lf mp items).map (fun r => r.rank) =
        (List.range (asoRecommendRows c s lf mp items).length).map
          (fun j => j + 1)) := by
  refine ⟨by decide, ?_, ?_, ?_, ?_⟩
  · intro c s lf mp items
    have hlen : (List.insertionSort cmRecommendLE
        (items.filter (cmRecommendKeep mp))).length =
        (items.filter (cmRecommendKeep mp)).length :=
      (List.perm_insertionSort cmRecommendLE _).length_eq
    unfold asoRecommendRows
    simp only [rowsFrom_length]
    set lim : Int := if lf ≤ 0 then (50 : Int) else lf with hlim
    have hpos : 0 < lim := by rw [hlim]; split <;> omega
    split
    next hc =>
      simp only [decide_eq_true_eq] at hc
      rw [List.length_take]
      omega
    next hc =>
      simp only [decide_eq_true_eq] at hc
      omega
  · intro c s lf mp items row h
    obtain ⟨it, hmem, hkeep, hterm, hpop⟩ := mem_asoRecommendRows h
    unfold cmRecommendKeep at hkeep
    simp only [Bool.and_eq_true, Bool.not_eq_true', decide_eq_false_iff_not,
      not_lt, beq_eq_false_iff_ne, ne_eq] at hkeep
    exact ⟨it, hmem, hkeep.1, hkeep.2, hterm, hpop⟩
  · intro c s lf mp items
    unfold asoRecommendRows
    apply rowsFrom_chain
    have hsorted : List.Sorted cmRecommendLE
        (List.insertionSort cmRecommendLE
          (items.filter (cmRecommendKeep mp))) :=
      List.sorted_insertionSort cmRecommendLE _
    split <;> split <;>
      first
        | exact ((hsorted.sublist (List.take_sublist _ _)).chain')
        | exact hsorted.chain'
  · intro c s lf mp items
    unfold asoRecommendRows
    rw [rowsFrom_ranks, rowsFrom_length]
    refine List.map_congr_left ?_
    intro j _
    omega

/-! # Claim C10 -/

/-- Items with blank trimmed names do not survive the popularity filter
either way. -/
theorem filter_keep_absorbs_blank (mp : Int) (items : List CmKeywordItem) :
    (items.filter (fun it => !(strTrim it.name == ""))).filter
        (cmRecommendKeep mp) =
      items.filter (cmRecommendKeep mp) := by
  induction items with
  | nil => rfl
  | cons a rest ih =>
    by_cases hb : (strTrim a.name == "") = true
    · have hk : cmRecommendKeep mp a = false := by
        unfold cmRecommendKeep; simp [hb]
      simp [List.filter_cons, hb, hk, ih]
    · have hb2 : (strTrim a.name == "") = false := by
        simpa using hb
      simp only [List.filter_cons, hb2, Bool.not_false, if_pos]
      cases hk : cmRecommendKeep mp a <;> simp [hk, ih]

/-- C10: every item whose name is blank after trimming is dropped before
sorting, ranking and truncation — inserting such items anywhere in the
input leaves the output unchanged — and consequently no output row ever
has a blank term. -/
theorem c10_blank_names_dropped :
    (∀ c s lf mp items,
        asoRecommendRows c s lf mp items =
          asoRecommendRows c s lf mp
            (items.filter (fun it => !(strTrim it.name == "")))) ∧
    (∀ c s lf mp items row, row ∈ asoRecommendRows c s lf mp items →
        ¬strTrim row.term = "") := by
  constructor
  · intro c s lf mp items
    unfold asoRecommendRows
    rw [filter_keep_absorbs_blank]
  · intro c s lf mp items row h
    obtain ⟨it, _, hkeep, hterm, _⟩ := mem_asoRecommendRows h
    unfold cmRecommendKeep at hkeep
    simp only [Bool.and_eq_true, Bool.not_eq_true', decide_eq_false_iff_not,
      beq_eq_false_iff_ne, ne_eq] at hkeep
    rw [hterm]
    exact hkeep.2

/-- Witness for C10: a blank-named item with the highest popularity leaves
the output unchanged. -/
theorem c10_witness :
    asoRecommendRows "US" "p" 5 0 [⟨1, "  ", 9, ""⟩, ⟨2, "x", 3, ""⟩] =
      asoRecommendRows "US" "p" 5 0
        ([⟨1, "  ", 9, ""⟩, ⟨2, "x", 3, ""⟩].filter
          (fun it => !(strTrim it.name == ""))) :=
  c10_blank_names_dropped.1 "US" "p" 5 0 [⟨1, "  ", 9, ""⟩, ⟨2, "x", 3, ""⟩]

/-- Witness for C7 (amended): over the claim's example every row's term is
a kept item's name with the threshold respected. -/
theorem c7_witness :
    (asoRecommendRows "US" "plant" 2 10
        [⟨1, "A", 5, ""⟩, ⟨2, "B", 30, ""⟩, ⟨3, "C", 20, ""⟩]).length =
      min ([⟨1, "A", 5, ""⟩, ⟨2, "B", 30, ""⟩,
        (⟨3, "C", 20, ""⟩ : CmKeywordItem)].filter (cmRecommendKeep 10)).length
        ((if (2 : Int) ≤ 0 then (50 : Int) else 2).toNat) :=
  c7_recommend_rows_amended.2.1 "US" "plant" 2 10
    [⟨1, "A", 5, ""⟩, ⟨2, "B", 30, ""⟩, ⟨3, "C", 20, ""⟩]

/-! # Claims C2 and C5: retry-budget infrastructure -/

/-- Owned-target discovery never touches the fallback flag or counter. -/
theorem discover_preserves_fallback (env : StubEnv) (a : Bool)
    (st : LoopState) :
    (discoverOwnedAdamIDWithRefresh env a st).1.fallbacks = st.fallbacks ∧
    (discoverOwnedAdamIDWithRefresh env a st).1.attemptedOwnedAdamFallback =
      st.attemptedOwnedAdamFallback := by
  unfold discoverOwnedAdamIDWithRefresh
  cases env.discover st.discoveries st.cookie with
  | ok res => exact ⟨rfl, rfl⟩
  | error e =>
    simp only []
    split
    · cases env.refresh st.refreshes with
      | error re => exact ⟨rfl, rfl⟩
      | ok c =>
        simp only []
        cases env.discover (st.discoveries + 1) c with
        | ok res => exact ⟨rfl, rfl⟩
        | error e2 => exact ⟨rfl, rfl⟩
    · exact ⟨rfl, rfl⟩

/-- Owned-target discovery performs at most one nested refresh. -/
theorem discover_refresh_bound (env : StubEnv) (a : Bool) (st : LoopState) :
    (discoverOwnedAdamIDWithRefresh env a st).1.refreshes ≤
      st.refreshes + 1 := by
  unfold discoverOwnedAdamIDWithRefresh
  cases env.discover st.discoveries st.cookie with
  | ok res => simp
  | error e =>
    simp only []
    split
    · cases env.refresh st.refreshes with
      | error re => simp
      | ok c =>
        simp only []
        cases env.discover (st.discoveries + 1) c with
        | ok res => simp
        | error e2 => simp
    · simp

/-- The refresh step never touches the fallback flag or counter. -/
theorem refreshStep_preserves (env : StubEnv) (a : Bool) (st0 : LoopState) :
    (runCountryRefreshStep env a st0).1.fallbacks = st0.fallbacks ∧
    (runCountryRefreshStep env a st0).1.attemptedOwnedAdamFallback =
      st0.attemptedOwnedAdamFallback := by
  unfold runCountryRefreshStep
  cases env.call st0.calls st0.cookie st0.adamID with
  | ok items => exact ⟨rfl, rfl⟩
  | error e =>
    simp only []
    split
    · cases env.refresh st0.refreshes with
      | error re => exact ⟨rfl, rfl⟩
      | ok c => exact ⟨rfl, rfl⟩
    · exact ⟨rfl, rfl⟩

/-- The refresh step performs at most one refresh. -/
theorem refreshStep_refresh_bound (env : StubEnv) (a : Bool)
    (st0 : LoopState) :
    (runCountryRefreshStep env a st0).1.refreshes ≤ st0.refreshes + 1 := by
  unfold runCountryRefreshStep
  cases env.call st0.calls st0.cookie st0.adamID with
  | ok items => simp
  | error e =>
    simp only []
    split
    · cases env.refresh st0.refreshes with
      | error re => simp
      | ok c => simp
    · simp

/-- The fallback step consumes at most the remaining fallback budget. -/
theorem fallbackStep_fallback_bound (env : StubEnv) (a : Bool)
    (st : LoopState) (r2 : Except String (List CmKeywordItem)) :
    (runCountryFallbackStep env a st r2).1.fallbacks +
        fallbackBudget (runCountryFallbackStep env a st r2).1 ≤
      st.fallbacks + fallbackBudget st := by
  unfold runCountryFallbackStep
  cases r2 with
  | ok items => simp
  | error e =>
    simp only []
    split
    next hg =>
      have hatt : st.attemptedOwnedAdamFallback = false := by
        rcases Bool.and_eq_true_iff.mp hg with ⟨h1, _⟩
        simpa using h1
      rcases hd : discoverOwnedAdamIDWithRefresh env a
          { st with attemptedOwnedAdamFallback := true,
                    fallbacks := st.fallbacks + 1 } with ⟨stC, dr⟩
      have hp := discover_preserves_fallback env a
        { st with attemptedOwnedAdamFallback := true,
                  fallbacks := st.fallbacks + 1 }
      rw [hd] at hp
      have hp1 : stC.fallbacks = st.fallbacks + 1 := hp.1
      have hp2 : stC.attemptedOwnedAdamFallback = true := hp.2
      cases dr with
      | error de =>
        simp only [hd, fallbackBudget, hp1, hp2]
        simp [hatt]
      | ok owned =>
        simp only [hd]
        split <;> simp [fallbackBudget, hp1, hp2, hatt]
    next => simp

/-- The fallback step performs at most one (nested) refresh. -/
theorem fallbackStep_refresh_bound (env : StubEnv) (a : Bool)
    (st : LoopState) (r2 : Except String (List CmKeywordItem)) :
    (runCountryFallbackStep env a st r2).1.refreshes ≤ st.refreshes + 1 := by
  unfold runCountryFallbackStep
  cases r2 with
  | ok items => simp
  | error e =>
    simp only []
    split
    next hg =>
      rcases hd : discoverOwnedAdamIDWithRefresh env a
          { st with attemptedOwnedAdamFallback := true,
                    fallbacks := st.fallbacks + 1 } with ⟨stC, dr⟩
      have hb := discover_refresh_bound env a
        { st with attemptedOwnedAdamFallback := true,
                  fallbacks := st.fallbacks + 1 }
      rw [hd] at hb
      cases dr with
      | error de => simpa using hb
      | ok owned =>
        simp only [hd]
        split <;> simpa using hb
    next => simp

/-- One country iteration consumes at most the remaining fallback
budget. -/
theorem runCountry_fallback_bound (env : StubEnv) (a : Bool)
    (st0 : LoopState) :
    (runCountry env a st0).1.fallbacks +
        fallbackBudget (runCountry env a st0).1 ≤
      st0.fallbacks + fallbackBudget st0 := by
  unfold runCountry
  rcases hq : runCountryRefreshStep env a st0 with ⟨st, out⟩
  have hp := refreshStep_preserves env a st0
  rw [hq] at hp
  have hbudget : fallbackBudget st = fallbackBudget st0 := by
    unfold fallbackBudget
    rw [hp.2]
  have hp1 : st.fallbacks = st0.fallbacks := hp.1
  cases out with
  | abort m => simp [hp1, hbudget]
  | cont r2 =>
    have hb := fallbackStep_fallback_bound env a st r2
    simp only []
    calc (runCountryFallbackStep env a st r2).1.fallbacks +
          fallbackBudget (runCountryFallbackStep env a st r2).1
        ≤ st.fallbacks + fallbackBudget st := hb
      _ = st0.fallbacks + fallbackBudget st0 := by rw [hp1, hbudget]

/-- One country iteration performs at most two refreshes (one for the data
call, one nested in owned-target discovery). -/
theorem runCountry_refresh_bound (env : StubEnv) (a : Bool)
    (st0 : LoopState) :
    (runCountry env a st0).1.refreshes ≤ st0.refreshes + 2 := by
  unfold runCountry
  rcases hq : runCountryRefreshStep env a st0 with ⟨st, out⟩
  have h1 := refreshStep_refresh_bound env a st0
  rw [hq] at h1
  have h1b : st.refreshes ≤ st0.refreshes + 1 := h1
  cases out with
  | abort m =>
    show st.refreshes ≤ st0.refreshes + 2
    omega
  | cont r2 =>
    have h2 := fallbackStep_refresh_bound env a st r2
    show (runCountryFallbackStep env a st r2).1.refreshes ≤
      st0.refreshes + 2
    omega

/-- The whole loop consumes at most the remaining fallback budget. -/
theorem runLoop_fallback_bound (env : StubEnv) (a : Bool) :
    ∀ (cs : List String) (st : LoopState),
      (runLoop env a cs st).1.fallbacks +
          fallbackBudget (runLoop env a cs st).1 ≤
        st.fallbacks + fallbackBudget st := by
  intro cs
  induction cs with
  | nil => intro st; simp [runLoop]
  | cons c rest ih =>
    intro st
    unfold runLoop
    rcases hq : runCountry env a st with ⟨st2, r⟩
    have hb := runCountry_fallback_bound env a st
    rw [hq] at hb
    cases r with
    | ok u => exact le_trans (ih st2) hb
    | error e => exact hb

/-! # Claim C2 -/

/-- C2 counterexample: the credential-refresh branch carries no
once-per-execution flag, so a client whose calls fail refresh-classified
once per country triggers one refresh in each of two country iterations:
two refreshes within one outer query execution. -/
theorem c2_counterexample :
    (runLoop
        ⟨fun i _ _ =>
            if i == 0 || i == 2 then
              .error "cm popularities error (/): user is not logged in"
            else .ok [],
          fun _ _ => .error "unused",
          fun _ => .ok "refreshed"⟩
        true ["US", "GB"] (initLoopState "c0" 1)).1.refreshes = 2 := by
  decide

/-- C2 (amended): a credential refresh can be attempted once per country
iteration for the data call, plus once nested inside owned-target
discovery — bounded by two per iteration, not by one per outer
execution.  Against a client that always returns a CredentialExpired
classification with a succeeding refresher, exactly two API calls are
issued (the initial call and one retry after a single refresh) and the
query terminates in failure. -/
theorem c2_refresh_retry (env : StubEnv) (cookie c2v : String)
    (adamID : Int) (c0 : String) (rest : List String) (e : String)
    (hcall : ∀ i ck ad, env.call i ck ad = .error e)
    (href : isCMRefreshErrorStr e = true)
    (hrefresh : env.refresh 0 = .ok c2v) :
    ((runLoop env true (c0 :: rest) (initLoopState cookie adamID)).1.calls
        = 2 ∧
      (runLoop env true (c0 :: rest)
        (initLoopState cookie adamID)).1.refreshes = 1 ∧
      (runLoop env true (c0 :: rest) (initLoopState cookie adamID)).2 =
        .error e) ∧
    (∀ env2 a2 st, (runCountry env2 a2 st).1.refreshes ≤
      st.refreshes + 2) := by
  have hno : isCMNoUserOwnedAppsErrorStr e = false :=
    not_noOwned_of_refresh href
  refine ⟨?_, fun env2 a2 st => runCountry_refresh_bound env2 a2 st⟩
  unfold runLoop runCountry runCountryRefreshStep runCountryFallbackStep
    initLoopState
  simp [hcall, href, hno, hrefresh]

/-- Witness for C2 (amended): a concrete always-expired stub client. -/
theorem c2_witness :
    (runLoop
        ⟨fun _ _ _ => .error "user is not logged in",
          fun _ _ => .error "unused", fun _ => .ok "c2"⟩
        true ["US"] (initLoopState "c0" 1)).1.calls = 2 ∧
    (runLoop
        ⟨fun _ _ _ => .error "user is not logged in",
          fun _ _ => .error "unused", fun _ => .ok "c2"⟩
        true ["US"] (initLoopState "c0" 1)).1.refreshes = 1 ∧
    (runLoop
        ⟨fun _ _ _ => .error "user is not logged in",
          fun _ _ => .error "unused", fun _ => .ok "c2"⟩
        true ["US"] (initLoopState "c0" 1)).2 =
      .error "user is not logged in" :=
  (c2_refresh_retry
    ⟨fun _ _ _ => .error "user is not logged in",
      fun _ _ => .error "unused", fun _ => .ok "c2"⟩
    "c0" "c2" 1 "US" [] "user is not logged in"
    (fun _ _ _ => rfl) (by decide) rfl).1

/-! # Claim C5 -/

/-- C5: the owned-target fallback runs at most once per outer query
execution (the flag is set before discovery and never reset), and against
a client whose data calls always classify as TargetNotOwned while
discovery succeeds, exactly one discovery call and one re-call happen —
two API calls, one discovery, no refresh — before the query terminates in
failure, so no later country iteration can trigger a second discovery. -/
theorem c5_target_fallback_once (env : StubEnv) (cookie label : String)
    (adamID ownedID : Int) (c0 : String) (rest : List String) (e : String)
    (hcall : ∀ i ck ad, env.call i ck ad = .error e)
    (hno : isCMNoUserOwnedAppsErrorStr e = true)
    (hdisc : env.discover 0 cookie = .ok (ownedID, label)) :
    ((runLoop env true (c0 :: rest) (initLoopState cookie adamID)).1.calls
        = 2 ∧
      (runLoop env true (c0 :: rest)
        (initLoopState cookie adamID)).1.discoveries = 1 ∧
      (runLoop env true (c0 :: rest)
        (initLoopState cookie adamID)).1.refreshes = 0 ∧
      (runLoop env true (c0 :: rest)
        (initLoopState cookie adamID)).1.fallbacks = 1 ∧
      (runLoop env true (c0 :: rest) (initLoopState cookie adamID)).2 =
        .error e) ∧
    (∀ env2 a2 cs cookie2 adamID2,
      (runLoop env2 a2 cs (initLoopState cookie2 adamID2)).1.fallbacks
        ≤ 1) := by
  have href0 : isCMRefreshErrorStr e = false := not_refresh_of_noOwned hno
  constructor
  · unfold runLoop runCountry runCountryRefreshStep runCountryFallbackStep
      discoverOwnedAdamIDWithRefresh initLoopState
    simp [hcall, hno, href0, hdisc]
    split <;> simp
  · intro env2 a2 cs cookie2 adamID2
    have hb := runLoop_fallback_bound env2 a2 cs (initLoopState cookie2 adamID2)
    have hinit : (initLoopState cookie2 adamID2).fallbacks +
        fallbackBudget (initLoopState cookie2 adamID2) = 1 := by
      unfold initLoopState fallbackBudget
      simp
    calc (runLoop env2 a2 cs (initLoopState cookie2 adamID2)).1.fallbacks
        ≤ (runLoop env2 a2 cs (initLoopState cookie2 adamID2)).1.fallbacks +
            fallbackBudget (runLoop env2 a2 cs
              (initLoopState cookie2 adamID2)).1 := Nat.le_add_right _ _
      _ ≤ 1 := by rw [← hinit]; exact hb

/-- Witness for C5: a concrete always-not-owned stub client whose
discovery yields target 111. -/
theorem c5_witness :
    (runLoop
        ⟨fun _ _ _ =>
            .error "cm popularities error (403/NO_USER_OWNED_APPS_FOUND_CODE): forbidden",
          fun _ _ => .ok (111, "camp"), fun _ => .ok "c2"⟩
        true ["US", "GB"] (initLoopState "c0" 999)).1.calls = 2 ∧
    (runLoop
        ⟨fun _ _ _ =>
            .error "cm popularities error (403/NO_USER_OWNED_APPS_FOUND_CODE): forbidden",
          fun _ _ => .ok (111, "camp"), fun _ => .ok "c2"⟩
        true ["US", "GB"] (initLoopState "c0" 999)).1.discoveries = 1 ∧
    (runLoop
        ⟨fun _ _ _ =>
            .error "cm popularities error (403/NO_USER_OWNED_APPS_FOUND_CODE): forbidden",
          fun _ _ => .ok (111, "camp"), fun _ => .ok "c2"⟩
        true ["US", "GB"] (initLoopState "c0" 999)).1.refreshes = 0 ∧
    (runLoop
        ⟨fun _ _ _ =>
            .error "cm popularities error (403/NO_USER_OWNED_APPS_FOUND_CODE): forbidden",
          fun _ _ => .ok (111, "camp"), fun _ => .ok "c2"⟩
        true ["US", "GB"] (initLoopState "c0" 999)).1.fallbacks = 1 ∧
    (runLoop
        ⟨fun _ _ _ =>
            .error "cm popularities error (403/NO_USER_OWNED_APPS_FOUND_CODE): forbidden",
          fun _ _ => .ok (111, "camp"), fun _ => .ok "c2"⟩
        true ["US", "GB"] (initLoopState "c0" 999)).2 =
      .error "cm popularities error (403/NO_USER_OWNED_APPS_FOUND_CODE): forbidden" :=
  (c5_target_fallback_once
    ⟨fun _ _ _ =>
        .error "cm popularities error (403/NO_USER_OWNED_APPS_FOUND_CODE): forbidden",
      fun _ _ => .ok (111, "camp"), fun _ => .ok "c2"⟩
    "c0" "camp" 999 111 "US" ["GB"]
    "cm popularities error (403/NO_USER_OWNED_APPS_FOUND_CODE): forbidden"
    (fun _ _ _ => rfl) (by decide) rfl).1

/-! # Claim C9: header map infrastructure -/

/-- `Char.ofNat` on a small code point round-trips through `toNat`. -/
theorem char_toNat_ofNat {n : Nat} (h : n < 55296) :
    (Char.ofNat n).toNat = n := by
  unfold Char.ofNat
  rw [dif_pos (Or.inl h)]
  rfl

/-- ASCII uppercasing then lowercasing agrees with plain lowercasing. -/
theorem toLower_asciiUpperChar (c : Char) :
    (asciiUpperChar c).toLower = c.toLower := by
  unfold asciiUpperChar
  by_cases h : 97 ≤ c.toNat ∧ c.toNat ≤ 122
  · rw [if_pos h]
    have h1 : (Char.ofNat (c.toNat - 32)).toNat = c.toNat - 32 :=
      char_toNat_ofNat (by omega)
    unfold Char.toLower
    simp only [h1]
    rw [if_pos (by omega), if_neg (by omega)]
    have h2 : c.toNat - 32 + 32 = c.toNat := by omega
    rw [h2, Char.ofNat_toNat]
  · rw [if_neg h]

/-- ASCII lowercasing then lowercasing agrees with plain lowercasing. -/
theorem toLower_asciiLowerChar (c : Char) :
    (asciiLowerChar c).toLower = c.toLower := by
  unfold asciiLowerChar
  by_cases h : 65 ≤ c.toNat ∧ c.toNat ≤ 90
  · rw [if_pos h]
    have h1 : (Char.ofNat (c.toNat + 32)).toNat = c.toNat + 32 :=
      char_toNat_ofNat (by omega)
    unfold Char.toLower
    simp only [h1]
    rw [if_neg (by omega), if_pos (by omega)]
  · rw [if_neg h]

/-- The canonicalising case-scan does not change the lower-cased
content. -/
theorem map_toLower_canonChars :
    ∀ (cs : List Char) (u : Bool),
      (canonChars u cs).map Char.toLower = cs.map Char.toLower := by
  intro cs
  induction cs with
  | nil => intro u; rfl
  | cons c rest ih =>
    intro u
    have hc2 : Char.toLower (if u then asciiUpperChar c else asciiLowerChar c)
        = Char.toLower c := by
      cases u
      · exact toLower_asciiLowerChar c
      · exact toLower_asciiUpperChar c
    simp only [canonChars, List.map_cons, ih, hc2]

/-- Canonicalising a header key does not change its lower-cased form. -/
theorem strToLower_canonical (s : String) :
    strToLower (canonicalMIMEHeaderKey s) = strToLower s := by
  unfold canonicalMIMEHeaderKey
  split
  · show strToLower ⟨canonChars true s.data⟩ = strToLower s
    unfold strToLower
    rw [show (⟨canonChars true s.data⟩ : String).data =
      canonChars true s.data from rfl]
    rw [map_toLower_canonChars]
  · rfl

/-- Lowercasing does not create or destroy whitespace. -/
theorem goIsSpace_toLower (c : Char) :
    goIsSpace (Char.toLower c) = goIsSpace c := by
  by_cases h : c.toNat ≥ 65 ∧ c.toNat ≤ 90
  · have hlow : Char.toLower c = Char.ofNat (c.toNat + 32) := by
      show (if c.toNat ≥ 65 ∧ c.toNat ≤ 90 then Char.ofNat (c.toNat + 32)
        else c) = Char.ofNat (c.toNat + 32)
      exact if_pos h
    have h1 : (Char.ofNat (c.toNat + 32)).toNat = c.toNat + 32 :=
      char_toNat_ofNat (by omega)
    have hA : goIsSpace (Char.ofNat (c.toNat + 32)) = false := by
      unfold goIsSpace
      simp only [h1, Bool.or_eq_false_iff, beq_eq_false_iff_ne, ne_eq]
      omega
    have hB : goIsSpace c = false := by
      unfold goIsSpace
      simp only [Bool.or_eq_false_iff, beq_eq_false_iff_ne, ne_eq]
      omega
    rw [hlow, hA, hB]
  · have hlow : Char.toLower c = c := by
      show (if c.toNat ≥ 65 ∧ c.toNat ≤ 90 then Char.ofNat (c.toNat + 32)
        else c) = c
      exact if_neg h
    rw [hlow]

/-- `dropWhile` is the identity on lists with no satisfying element. -/
theorem dropWhile_eq_self_of_none {p : Char → Bool} :
    ∀ l : List Char, (∀ c ∈ l, p c = false) → l.dropWhile p = l := by
  intro l h
  cases l with
  | nil => rfl
  | cons c rest =>
    rw [List.dropWhile_cons, if_neg (by simp [h c (List.mem_cons_self c rest)])]

/-- Trimming is the identity on whitespace-free strings. -/
theorem strTrim_of_nonspace {s : String}
    (h : ∀ c ∈ s.data, goIsSpace c = false) : strTrim s = s := by
  unfold strTrim
  rw [dropWhile_eq_self_of_none s.data h,
    dropWhile_eq_self_of_none s.data.reverse
      (fun c hc => h c (List.mem_reverse.mp hc)),
    List.reverse_reverse]

/-- An extra header whose canonicalised name is the anti-forgery header
name is found by the case-insensitive check the code performs. -/
theorem hasHeader_of_canonical_eq {extras : List (String × String)}
    {p : String × String} (hmem : p ∈ extras)
    (hcanon : canonicalMIMEHeaderKey p.1 = "X-Xsrf-Token-Cm") :
    hasHeaderCaseInsensitive extras "X-XSRF-TOKEN-CM" = true := by
  unfold hasHeaderCaseInsensitive
  rw [List.any_eq_true]
  refine ⟨p, hmem, ?_⟩
  have hlow : strToLower p.1 = strToLower "X-Xsrf-Token-Cm" := by
    rw [← strToLower_canonical p.1, hcanon]
  have hL : ∀ x ∈ ("x-xsrf-token-cm" : String).data, goIsSpace x = false := by
    decide
  have hns : ∀ c ∈ p.1.data, goIsSpace c = false := by
    intro c hc
    have hmem2 : Char.toLower c ∈ (strToLower p.1).data :=
      List.mem_map_of_mem Char.toLower hc
    rw [hlow] at hmem2
    have hdata : (strToLower "X-Xsrf-Token-Cm").data =
        ("x-xsrf-token-cm" : String).data := by decide
    rw [hdata] at hmem2
    rw [← goIsSpace_toLower c]
    exact hL _ hmem2
  rw [strTrim_of_nonspace hns, hlow]
  decide

/-- Setting a header then reading any key with the same canonical form
yields the new value. -/
theorem headerGet_set_eq (h : List (String × String)) (k v k2 : String)
    (hk : canonicalMIMEHeaderKey k2 = canonicalMIMEHeaderKey k) :
    headerGet (headerSet h k v) k2 = some v := by
  unfold headerGet headerSet
  rw [hk]
  induction h with
  | nil => simp
  | cons p rest ih =>
    by_cases hp : (p.1 == canonicalMIMEHeaderKey k) = true
    · simpa [List.filter_cons, hp] using ih
    · have hp2 : (p.1 == canonicalMIMEHeaderKey k) = false := by
        simpa using hp
      simpa [List.filter_cons, hp2, List.find?_cons] using ih

/-- Setting a header leaves reads of canonically different keys
unchanged. -/
theorem headerGet_set_ne (h : List (String × String)) (k v k2 : String)
    (hk : canonicalMIMEHeaderKey k2 ≠ canonicalMIMEHeaderKey k) :
    headerGet (headerSet h k v) k2 = headerGet h k2 := by
  unfold headerGet headerSet
  simp only []
  have hkk : (canonicalMIMEHeaderKey k == canonicalMIMEHeaderKey k2)
      = false := by
    simp only [beq_eq_false_iff_ne, ne_eq]
    exact fun e => hk e.symm
  induction h with
  | nil =>
    simp only [List.filter_nil, List.nil_append, List.find?_cons, hkk,
      List.find?_nil]
  | cons p rest ih =>
    rw [List.filter_cons]
    by_cases hp : (p.1 == canonicalMIMEHeaderKey k) = true
    · have h1 : p.1 = canonicalMIMEHeaderKey k := by simpa using hp
      have hpk : (p.1 == canonicalMIMEHeaderKey k2) = false := by
        rw [h1]; exact hkk
      rw [if_neg (by simp [hp]), ih]
      simp only [List.find?_cons, hpk]
    · have hp2 : (p.1 == canonicalMIMEHeaderKey k) = false := by
        simpa using hp
      rw [if_pos (by simp [hp2]), List.cons_append]
      by_cases hq : (p.1 == canonicalMIMEHeaderKey k2) = true
      · simp only [List.find?_cons, hq]
      · have hq2 : (p.1 == canonicalMIMEHeaderKey k2) = false := by
          simpa using hq
        simp only [List.find?_cons, hq2]
        exact ih

/-- Folding caller headers whose canonical names all differ from the
lookup key leaves the lookup unchanged. -/
theorem headerGet_foldl_none (extras : List (String × String)) :
    ∀ (h : List (String × String)) (k : String),
      (∀ p ∈ extras,
        canonicalMIMEHeaderKey p.1 ≠ canonicalMIMEHeaderKey k) →
      headerGet (extras.foldl (fun acc p => headerSet acc p.1 p.2) h) k =
        headerGet h k := by
  induction extras with
  | nil => intro h k _; rfl
  | cons p rest ih =>
    intro h k hno
    simp only [List.foldl_cons]
    rw [ih _ _ (fun q hq => hno q (List.mem_cons_of_mem p hq))]
    exact headerGet_set_ne h p.1 p.2 k
      (Ne.symm (hno p (List.mem_cons_self p rest)))

/-- Folding caller headers reads back the last entry for each canonical
name. -/
theorem headerGet_foldl_last (l1 : List (String × String))
    (p : String × String) (l2 : List (String × String))
    (h : List (String × String))
    (hno : ∀ q ∈ l2,
      canonicalMIMEHeaderKey q.1 ≠ canonicalMIMEHeaderKey p.1) :
    headerGet ((l1 ++ p :: l2).foldl
      (fun acc q => headerSet acc q.1 q.2) h) p.1 = some p.2 := by
  rw [List.foldl_append]
  simp only [List.foldl_cons]
  rw [headerGet_foldl_none l2 _ _ hno]
  exact headerGet_set_eq _ _ _ _ rfl

/-- C9: every request built by the CM client carries the credential as the
`Cookie` header (when the caller does not override it); when the credential
contains an `XSRF-TOKEN-CM` sub-field and the caller's extra headers do not
already contain `X-XSRF-TOKEN-CM` under case-insensitive comparison, its
value is attached as the `X-XSRF-TOKEN-CM` header; and the caller's extra
headers are applied last, so the last caller entry for a canonical name
wins any conflict. -/
theorem c9_request_headers :
    (∀ cookie extras,
        (∀ p ∈ extras, canonicalMIMEHeaderKey p.1 ≠ "Cookie") →
        headerGet (cmBuildHeaders cookie extras) "Cookie" = some cookie) ∧
    (∀ cookie extras,
        cookieValue cookie "XSRF-TOKEN-CM" ≠ "" →
        hasHeaderCaseInsensitive extras "X-XSRF-TOKEN-CM" = false →
        headerGet (cmBuildHeaders cookie extras) "X-XSRF-TOKEN-CM" =
          some (cookieValue cookie "XSRF-TOKEN-CM")) ∧
    (∀ cookie l1 p l2,
        (∀ q ∈ l2,
          canonicalMIMEHeaderKey q.1 ≠ canonicalMIMEHeaderKey p.1) →
        headerGet (cmBuildHeaders cookie (l1 ++ p :: l2)) p.1 =
          some p.2) := by
  refine ⟨?_, ?_, ?_⟩
  · intro cookie extras hno
    unfold cmBuildHeaders
    simp only []
    rw [headerGet_foldl_none extras _ _ ?hno2]
    case hno2 =>
      intro p hp
      rw [show canonicalMIMEHeaderKey "Cookie" = "Cookie" from by decide]
      exact hno p hp
    split
    · rw [headerGet_set_ne _ _ _ _ (by decide),
        headerGet_set_ne _ _ _ _ (by decide),
        headerGet_set_ne _ _ _ _ (by decide),
        headerGet_set_ne _ _ _ _ (by decide),
        headerGet_set_ne _ _ _ _ (by decide)]
      exact headerGet_set_eq _ _ _ _ rfl
    · rw [headerGet_set_ne _ _ _ _ (by decide),
        headerGet_set_ne _ _ _ _ (by decide),
        headerGet_set_ne _ _ _ _ (by decide),
        headerGet_set_ne _ _ _ _ (by decide)]
      exact headerGet_set_eq _ _ _ _ rfl
  · intro cookie extras h1 h2
    unfold cmBuildHeaders
    simp only []
    rw [headerGet_foldl_none extras _ _ ?hno2]
    case hno2 =>
      intro p hp
      rw [show canonicalMIMEHeaderKey "X-XSRF-TOKEN-CM" = "X-Xsrf-Token-Cm"
        from by decide]
      intro hcc
      rw [hasHeader_of_canonical_eq hp hcc] at h2
      exact Bool.true_eq_false.mp h2
    have hne : (cookieValue cookie "XSRF-TOKEN-CM" == "") = false := by
      simpa using h1
    rw [if_pos (by rw [hne, h2]; rfl)]
    exact headerGet_set_eq _ _ _ _ rfl
  · intro cookie l1 p l2 hno
    unfold cmBuildHeaders
    simp only []
    exact headerGet_foldl_last l1 p l2 _ hno

/-- Witness for C9: a concrete credential containing the anti-forgery
sub-field, and a caller override of the Cookie header that wins. -/
theorem c9_witness :
    headerGet (cmBuildHeaders "a=b; XSRF-TOKEN-CM=tok42" [])
        "X-XSRF-TOKEN-CM"
      = some (cookieValue "a=b; XSRF-TOKEN-CM=tok42" "XSRF-TOKEN-CM") ∧
    headerGet (cmBuildHeaders "a=b" [("cookie", "override")]) "cookie"
      = some "override" := by
  constructor
  · exact c9_request_headers.2.1 "a=b; XSRF-TOKEN-CM=tok42" [] (by decide)
      (by decide)
  · exact c9_request_headers.2.2 "a=b" [] ("cookie", "override") []
      (by simp)

end ASOCLI
